import Mathlib

/-!
Verification of the prerequisite-resolution and pathway-scheduling engine of
the monash-handbook-plus repository, shallowly embedded in Lean.

Sources embedded:
* requisite data model: `src/src/types/index.ts` (also `src/unnamed/part_007`)
* satisfaction checker `checkPrerequisitesMet`: `src/unnamed/part_003`
* pathway resolver `buildPath` / `chooseBestOption` / `getPrereqDepth` and
  scheduler `scheduledPath`: `src/src/pages/PathwayPage.tsx`
* full-planner scheduler `scheduledSemesters`: `src/src/pages/PlannerPage.tsx`
* dependency-graph builder (network.json generation): `src/unnamed/part_007`

JavaScript `Set<string>` values are modelled as `List String` used only
through membership (`List.contains`, mirroring `Set.has`); maps from codes to
records are association lists looked up by key.  Numbers arising in the code
are naturals except the heuristic score, which can be negative and is an `Int`.
-/

namespace Handbook

/-! ## Data model (types/index.ts) -/

/-- One N-of-M requisite group: `{ NumReq, units }` (interface `Requisite`). -/
structure Requisite where
  NumReq : Nat
  units : List String
deriving Repr, DecidableEq

/-- Interface `UnitRequisites`. -/
structure UnitRequisites where
  permission : Bool
  prohibitions : List String
  corequisites : List Requisite
  prerequisites : List Requisite
  cp_required : Nat
deriving Repr, DecidableEq

/-- Interface `UnitOffering`. -/
structure UnitOffering where
  location : String
  mode : String
  name : String
  period : String
deriving Repr, DecidableEq

/-- Interface `ProcessedUnit` (fields used by the core; optional fields are
`Option`, mirroring `offerings?` / `requisites?`). -/
structure ProcessedUnit where
  code : String
  title : String
  credit_points : String
  sca_band : String
  school : String
  offerings : Option (List UnitOffering) := none
  requisites : Option UnitRequisites := none
deriving Repr, DecidableEq

/-- `ProcessedUnitsData = Record<string, ProcessedUnit>`: an association list
from unit code to record, looked up by key (first match, as in a JS object). -/
abbrev Catalog := List (String × ProcessedUnit)

/-- Key lookup `unitsData[code]`. -/
def lookupUnit : Catalog → String → Option ProcessedUnit
  | [], _ => none
  | (k, u) :: rest, code => if k = code then some u else lookupUnit rest code

/-- The prerequisite groups reachable through `requisites?.prerequisites`,
with the same null-tolerance as the JS optional chaining. -/
def prereqGroupsOf : Option UnitRequisites → List Requisite
  | none => []
  | some r => r.prerequisites

/-! ## Satisfaction checker (`checkPrerequisitesMet`, part_003 lines 695-721) -/

/-- One record of `missingGroups`: `{ needed, options }`. -/
structure MissingGroup where
  needed : Nat
  options : List String
deriving Repr, DecidableEq

/-- Return shape of `checkPrerequisitesMet`. -/
structure CheckResult where
  met : Bool
  missingGroups : List MissingGroup
deriving Repr, DecidableEq

/-- Body of the per-group loop of `checkPrerequisitesMet`: emit a missing
record iff fewer than `NumReq` of the group's units are in the planner set
(the JS local `unitsInPlanner` is written out twice here). -/
def checkGroup (plannerSet : List String) (g : Requisite) : Option MissingGroup :=
  if (g.units.filter (fun u => plannerSet.contains u)).length < g.NumReq then
    some ⟨g.NumReq - (g.units.filter (fun u => plannerSet.contains u)).length,
      g.units.filter (fun u => !(plannerSet.contains u))⟩
  else
    none

/-- `checkPrerequisitesMet` from `src/unnamed/part_003`:
each group requires `NumReq` units from its list (OR within a group, AND
between groups); `met` iff no group is missing. -/
def checkPrerequisitesMet (requisites : Option UnitRequisites)
    (plannerSet : List String) : CheckResult :=
  match requisites with
  | none => ⟨true, []⟩
  | some r =>
    if r.prerequisites.isEmpty then ⟨true, []⟩
    else
      ⟨(r.prerequisites.filterMap (checkGroup plannerSet)).isEmpty,
        r.prerequisites.filterMap (checkGroup plannerSet)⟩

/-! Specification-side vocabulary for the claims about the checker. -/

/-- Number of a group's options present in the satisfied set (counting list
occurrences, exactly as `group.units.filter(u => plannerSet.has(u)).length`). -/
def satCount (S : List String) (g : Requisite) : Nat :=
  (g.units.filter (fun u => S.contains u)).length

/-- A group is satisfied when at least `NumReq` of its options are in the
satisfied set. -/
def groupSatisfied (S : List String) (g : Requisite) : Prop :=
  g.NumReq ≤ satCount S g

instance (S : List String) (g : Requisite) : Decidable (groupSatisfied S g) := by
  unfold groupSatisfied; infer_instance

/-! Helper lemmas about the checker, shared by several claims. -/

theorem checkGroup_eq_none_iff (S : List String) (g : Requisite) :
    checkGroup S g = none ↔ groupSatisfied S g := by
  constructor
  · intro h
    unfold checkGroup at h
    split at h
    · simp at h
    · rename_i hc
      unfold groupSatisfied satCount
      omega
  · intro hsat
    unfold groupSatisfied satCount at hsat
    unfold checkGroup
    rw [if_neg (by omega)]

theorem checkGroup_eq_some_of_unsat (S : List String) (g : Requisite)
    (h : ¬ groupSatisfied S g) :
    checkGroup S g =
      some ⟨g.NumReq - satCount S g, g.units.filter (fun u => !(S.contains u))⟩ := by
  unfold groupSatisfied satCount at h
  unfold checkGroup satCount
  rw [if_pos (by omega)]

theorem checkGroup_some_inv (S : List String) (g : Requisite) (m : MissingGroup)
    (h : checkGroup S g = some m) :
    ¬ groupSatisfied S g ∧ m.needed = g.NumReq - satCount S g
      ∧ m.options = g.units.filter (fun u => !(S.contains u)) := by
  unfold checkGroup at h
  split at h
  · rename_i hc
    cases h
    refine ⟨?_, rfl, rfl⟩
    unfold groupSatisfied satCount
    omega
  · cases h

theorem missingGroups_eq (r : UnitRequisites) (S : List String) :
    (checkPrerequisitesMet (some r) S).missingGroups
      = r.prerequisites.filterMap (checkGroup S) := by
  show (if r.prerequisites.isEmpty then (⟨true, []⟩ : CheckResult)
    else ⟨(r.prerequisites.filterMap (checkGroup S)).isEmpty,
      r.prerequisites.filterMap (checkGroup S)⟩).missingGroups
      = r.prerequisites.filterMap (checkGroup S)
  split
  · rename_i h
    rw [List.isEmpty_iff] at h
    simp [h]
  · rfl

theorem met_iff_forall (req : Option UnitRequisites) (S : List String) :
    (checkPrerequisitesMet req S).met = true
      ↔ ∀ g ∈ prereqGroupsOf req, groupSatisfied S g := by
  cases req with
  | none => simp [checkPrerequisitesMet, prereqGroupsOf]
  | some r =>
    show (if r.prerequisites.isEmpty then (⟨true, []⟩ : CheckResult)
      else ⟨(r.prerequisites.filterMap (checkGroup S)).isEmpty,
        r.prerequisites.filterMap (checkGroup S)⟩).met = true
        ↔ ∀ g ∈ prereqGroupsOf (some r), groupSatisfied S g
    unfold prereqGroupsOf
    split
    · rename_i h
      rw [List.isEmpty_iff] at h
      simp [h]
    · simp only [List.isEmpty_iff, List.filterMap_eq_nil_iff]
      constructor
      · intro h g hg
        rw [← checkGroup_eq_none_iff S g]
        exact h g hg
      · intro h g hg
        rw [checkGroup_eq_none_iff S g]
        exact h g hg

theorem mem_missingGroups_iff (r : UnitRequisites) (S : List String)
    (m : MissingGroup) :
    m ∈ (checkPrerequisitesMet (some r) S).missingGroups
      ↔ ∃ g ∈ r.prerequisites, checkGroup S g = some m := by
  rw [missingGroups_eq]
  simp [List.mem_filterMap]

/-- Claim C1.  The satisfaction check returns `met = true` exactly when every
prerequisite group has at least `NumReq` of its options in the satisfied set;
every reported missing group corresponds to an unsatisfied group, carrying
`needed = NumReq - satCount` and the options not in the satisfied set; every
unsatisfied group is so reported; and an absent requisite set or one with zero
prerequisite groups is trivially satisfied with no unmet groups. -/
theorem checkPrerequisitesMet_correct (req : Option UnitRequisites) (S : List String) :
    ((checkPrerequisitesMet req S).met = true ↔ ∀ g ∈ prereqGroupsOf req, groupSatisfied S g)
    ∧ (∀ m ∈ (checkPrerequisitesMet req S).missingGroups,
        ∃ g ∈ prereqGroupsOf req, ¬ groupSatisfied S g
          ∧ m.needed = g.NumReq - satCount S g
          ∧ m.options = g.units.filter (fun u => !(S.contains u)))
    ∧ (∀ g ∈ prereqGroupsOf req, ¬ groupSatisfied S g →
        (⟨g.NumReq - satCount S g, g.units.filter (fun u => !(S.contains u))⟩ : MissingGroup)
          ∈ (checkPrerequisitesMet req S).missingGroups)
    ∧ (prereqGroupsOf req = [] → checkPrerequisitesMet req S = ⟨true, []⟩) := by
  refine ⟨met_iff_forall req S, ?_, ?_, ?_⟩
  · intro m hm
    cases req with
    | none => simp [checkPrerequisitesMet] at hm
    | some r =>
      rw [mem_missingGroups_iff] at hm
      obtain ⟨g, hg, hsome⟩ := hm
      obtain ⟨h1, h2, h3⟩ := checkGroup_some_inv S g m hsome
      exact ⟨g, hg, h1, h2, h3⟩
  · intro g hg hunsat
    cases req with
    | none => simp [prereqGroupsOf] at hg
    | some r =>
      rw [mem_missingGroups_iff]
      exact ⟨g, hg, checkGroup_eq_some_of_unsat S g hunsat⟩
  · intro hempty
    cases req with
    | none => rfl
    | some r =>
      have h : r.prerequisites = [] := hempty
      show (if r.prerequisites.isEmpty then (⟨true, []⟩ : CheckResult)
        else ⟨(r.prerequisites.filterMap (checkGroup S)).isEmpty,
          r.prerequisites.filterMap (checkGroup S)⟩) = ⟨true, []⟩
      rw [if_pos (by rw [List.isEmpty_iff]; exact h)]

/-- Witness for C1 (spec §8.7 scenario): one group `{NumReq 1, [FIT1045, FIT1008]}`
with `FIT1045` satisfied is met, and the trivial cases hold. -/
theorem checkPrerequisitesMet_correct_witness :
    (checkPrerequisitesMet
        (some ⟨false, [], [], [⟨1, ["FIT1045", "FIT1008"]⟩], 0⟩) ["FIT1045"]).met = true
    ∧ checkPrerequisitesMet none ["FIT1045"] = ⟨true, []⟩ := by
  constructor
  · exact (checkPrerequisitesMet_correct
      (some ⟨false, [], [], [⟨1, ["FIT1045", "FIT1008"]⟩], 0⟩) ["FIT1045"]).1.mpr
      (by decide)
  · exact (checkPrerequisitesMet_correct none ["FIT1045"]).2.2.2 (by decide)

/-! ## Monotonicity (claim C4) -/

theorem length_filter_mono {α : Type} (l : List α) (p q : α → Bool)
    (h : ∀ a, p a = true → q a = true) :
    (l.filter p).length ≤ (l.filter q).length := by
  induction l with
  | nil => simp
  | cons a rest ih =>
    by_cases hp : p a = true
    · simp [List.filter_cons, hp, h a hp]
      omega
    · have hp' : p a = false := by
        cases hpa : p a
        · rfl
        · exact absurd hpa hp
      simp only [List.filter_cons, hp']
      cases hq : q a <;> simp <;> omega

theorem satCount_mono (g : Requisite) (S S' : List String)
    (hsub : ∀ x, x ∈ S → x ∈ S') :
    satCount S g ≤ satCount S' g := by
  unfold satCount
  apply length_filter_mono
  intro a ha
  rw [List.elem_iff] at ha ⊢
  exact hsub a ha

/-- Claim C4.  Satisfaction is monotone in the satisfied set: if `S ⊆ S'`,
every prerequisite group satisfied under `S` stays satisfied under `S'`, and
an overall `met = true` under `S` stays `true` under `S'`. -/
theorem checkPrerequisitesMet_monotone (req : Option UnitRequisites)
    (S S' : List String) (hsub : ∀ x, x ∈ S → x ∈ S') :
    (∀ g ∈ prereqGroupsOf req, groupSatisfied S g → groupSatisfied S' g)
    ∧ ((checkPrerequisitesMet req S).met = true → (checkPrerequisitesMet req S').met = true) := by
  have hgrp : ∀ g : Requisite, groupSatisfied S g → groupSatisfied S' g := by
    intro g hg
    exact le_trans hg (satCount_mono g S S' hsub)
  refine ⟨fun g _ => hgrp g, ?_⟩
  intro hmet
  rw [met_iff_forall] at hmet ⊢
  intro g hg
  exact hgrp g (hmet g hg)

/-- Witness for C4 at `S = [FIT1045] ⊆ S' = [FIT1045, MAT1830]` and a
one-group requisite set. -/
theorem checkPrerequisitesMet_monotone_witness :
    (∀ g ∈ prereqGroupsOf (some ⟨false, [], [], [⟨1, ["FIT1045"]⟩], 0⟩),
        groupSatisfied ["FIT1045"] g → groupSatisfied ["FIT1045", "MAT1830"] g)
    ∧ ((checkPrerequisitesMet (some ⟨false, [], [], [⟨1, ["FIT1045"]⟩], 0⟩) ["FIT1045"]).met = true
        → (checkPrerequisitesMet (some ⟨false, [], [], [⟨1, ["FIT1045"]⟩], 0⟩)
            ["FIT1045", "MAT1830"]).met = true) :=
  checkPrerequisitesMet_monotone
    (some ⟨false, [], [], [⟨1, ["FIT1045"]⟩], 0⟩) ["FIT1045"] ["FIT1045", "MAT1830"]
    (by intro x hx; simp at hx; simp [hx])

/-! ## Corequisite and credit-point gates (claim C8)

`checkPrerequisitesMet` reads only `requisites.prerequisites`; corequisite
groups and `cp_required` are not evaluated at all — they are rendered raw by
the unit-detail page, and no evaluation of them appears anywhere in the
result. -/

/-- Counterexample for C8 as stated: a requisite set whose only content is an
unsatisfiable corequisite group and a credit-point gate produces the same
trivially-satisfied output as one with no corequisites and no gate at all
under the empty satisfied set — the check does not evaluate them, and no
separate report of them is exposed. -/
theorem coreq_not_evaluated_counterexample :
    checkPrerequisitesMet (some ⟨false, [], [⟨1, ["AAA1111"]⟩], [], 12⟩) [] = ⟨true, []⟩
    ∧ checkPrerequisitesMet (some ⟨false, [], [⟨1, ["AAA1111"]⟩], [], 12⟩) []
        = checkPrerequisitesMet (some ⟨false, [], [], [], 0⟩) [] := by
  constructor <;> rfl

/-- Amended C8.  The satisfaction check ignores corequisite groups and the
credit-point gate entirely: its whole result (not just the `met` boolean) is a
function of the prerequisite groups alone. -/
theorem checkPrerequisitesMet_ignores_coreqs
    (perm perm' : Bool) (proh proh' : List String) (coreq coreq' : List Requisite)
    (prereq : List Requisite) (cp cp' : Nat) (S : List String) :
    checkPrerequisitesMet (some ⟨perm, proh, coreq, prereq, cp⟩) S
      = checkPrerequisitesMet (some ⟨perm', proh', coreq', prereq, cp'⟩) S := rfl

/-! ## Malformed groups (claim C9) -/

/-- Claim C9.  A group whose `NumReq` exceeds the number of its options can
never be satisfied: under every satisfied set it is reported in
`missingGroups` and forces `met = false` (and the total function obviously
cannot crash). -/
theorem malformed_group_always_unmet (g : Requisite)
    (hmal : g.units.length < g.NumReq) (req : Option UnitRequisites)
    (S : List String) (hg : g ∈ prereqGroupsOf req) :
    satCount S g < g.NumReq
    ∧ (⟨g.NumReq - satCount S g, g.units.filter (fun u => !(S.contains u))⟩ : MissingGroup)
        ∈ (checkPrerequisitesMet req S).missingGroups
    ∧ (checkPrerequisitesMet req S).met = false := by
  have hcount : satCount S g < g.NumReq := by
    have hle : satCount S g ≤ g.units.length := List.length_filter_le _ _
    omega
  have hunsat : ¬ groupSatisfied S g := by
    unfold groupSatisfied
    omega
  refine ⟨hcount, ?_, ?_⟩
  · cases req with
    | none => simp [prereqGroupsOf] at hg
    | some r =>
      rw [mem_missingGroups_iff]
      exact ⟨g, hg, checkGroup_eq_some_of_unsat S g hunsat⟩
  · cases hmet : (checkPrerequisitesMet req S).met
    · rfl
    · exact absurd ((met_iff_forall req S).mp hmet g hg) hunsat

/-- Witness for C9: the group `{NumReq 2, [AAA1111]}` is reported unmet even
when its only option is satisfied. -/
theorem malformed_group_always_unmet_witness :
    (["AAA1111"] : List String).length < 2
    ∧ ((⟨2, ["AAA1111"]⟩ : Requisite)
        ∈ prereqGroupsOf (some ⟨false, [], [], [⟨2, ["AAA1111"]⟩], 0⟩))
    ∧ (satCount ["AAA1111"] ⟨2, ["AAA1111"]⟩ < 2
        ∧ (⟨2 - satCount ["AAA1111"] ⟨2, ["AAA1111"]⟩,
            (["AAA1111"] : List String).filter
              (fun u => !((["AAA1111"] : List String).contains u))⟩ : MissingGroup)
            ∈ (checkPrerequisitesMet (some ⟨false, [], [], [⟨2, ["AAA1111"]⟩], 0⟩)
                ["AAA1111"]).missingGroups
        ∧ (checkPrerequisitesMet (some ⟨false, [], [], [⟨2, ["AAA1111"]⟩], 0⟩)
            ["AAA1111"]).met = false) :=
  ⟨by decide, by decide,
    malformed_group_always_unmet ⟨2, ["AAA1111"]⟩ (by decide)
      (some ⟨false, [], [], [⟨2, ["AAA1111"]⟩], 0⟩) ["AAA1111"] (by decide)⟩

/-! ## Offering-period parsing (`getSemestersFromOfferings`, part_007 lines 41-54)

The JS builds a `Set` of tags per offering and finally sorts the array, so the
result is the deduplicated tag list in lexicographic order. -/

/-- Case-folded characters of a string (JS `period.toLowerCase()`). -/
def lowerChars (s : String) : List Char := s.toList.map Char.toLower

/-- Prefix equality on character lists. -/
def listPrefixEq : List Char → List Char → Bool
  | [], _ => true
  | _ :: _, [] => false
  | a :: as, b :: bs => a = b && listPrefixEq as bs

/-- Substring test on character lists (JS `String.prototype.includes`). -/
def listSubstr (pat : List Char) : List Char → Bool
  | [] => listPrefixEq pat []
  | l@(_ :: rest) => listPrefixEq pat l || listSubstr pat rest

/-- `period.includes(pat)` after lowercasing the period. -/
def periodHas (period : String) (pat : String) : Bool :=
  listSubstr pat.toList (lowerChars period)

/-- The semester tags one offering's period contributes, in the source's
check order. -/
def periodTags (period : String) : List String :=
  (if periodHas period "first semester" || periodHas period "semester 1" then ["S1"] else [])
  ++ (if periodHas period "second semester" || periodHas period "semester 2" then ["S2"] else [])
  ++ (if periodHas period "summer" then ["Summer"] else [])
  ++ (if periodHas period "winter" then ["Winter"] else [])
  ++ (if periodHas period "october" || periodHas period "oct" then ["Oct"] else [])
  ++ (if periodHas period "february" || periodHas period "feb" then ["Feb"] else [])

/-- Keep the first occurrence of each string (JS `Set` insertion semantics). -/
def dedupKeepFirst : List String → List String
  | [] => []
  | s :: rest => s :: (dedupKeepFirst rest).filter (fun t => t != s)

/-- Stable insertion step for ascending lexicographic string sort
(JS default `Array.prototype.sort`). -/
def insertStrAsc (x : String) : List String → List String
  | [] => [x]
  | y :: ys => if x ≤ y then x :: y :: ys else y :: insertStrAsc x ys

/-- Ascending lexicographic sort, as the final `.sort()`. -/
def sortStrAsc (l : List String) : List String := l.foldr insertStrAsc []

/-- `getSemestersFromOfferings` from part_007: the set of tags of all
offerings, sorted. -/
def getSemestersFromOfferings (offerings : Option (List UnitOffering)) : List String :=
  match offerings with
  | none => []
  | some os => sortStrAsc (dedupKeepFirst (os.flatMap (fun o => periodTags o.period)))

/-! ## Code helpers (types/index.ts) -/

/-- `getUnitLevel` scan: first position where three letters are followed by a
digit (regex `/[A-Z]{3}(\d)/i`), returning that digit, else 0. -/
def levelScan : List Char → Nat
  | a :: b :: c :: d :: rest =>
    if a.isAlpha && b.isAlpha && c.isAlpha && d.isDigit then d.toNat - '0'.toNat
    else levelScan (b :: c :: d :: rest)
  | _ => 0

/-- `getUnitLevel` from types/index.ts (e.g. FIT1045 → 1, no match → 0). -/
def getUnitLevel (code : String) : Nat := levelScan code.toList

/-- `SCA_BAND_COSTS` lookup with the `|| 0` default. -/
def scaBandCost : String → Nat
  | "1" => 578
  | "2" => 1062
  | "3" => 1687
  | "4" => 2124
  | _ => 0

/-- `getUnitCost` from types/index.ts.  `Math.round((costPer6CP / 6) * cp)` is
modelled as exact rational rounding `(2 * costPer6CP * cp + 6) / 12`; the JS
float computation agrees on all catalog values (no claim depends on the cost
figure). -/
def getUnitCost (scaBand : Option String) (creditPoints : Nat) : Nat :=
  match scaBand with
  | none => 0
  | some b =>
    if b = "" then 0
    else (2 * scaBandCost (String.mk (b.toList.filter Char.isDigit)) * creditPoints + 6) / 12

/-! ## Pathway resolver (PathwayPage.tsx lines 53-179) -/

/-- `getPrefix` from PathwayPage: the leading run of uppercase letters
(regex `/^[A-Z]+/`, empty on no match). -/
def getPrefix (code : String) : String :=
  String.mk (code.toList.takeWhile (fun c => 'A' ≤ c && c ≤ 'Z'))

/-- The static `RELATED_PREFIXES` table of PathwayPage. -/
def RELATED_PREFIXES : String → Option (List String)
  | "FIT" => some ["FIT", "MAT", "MTH", "STA"]
  | "MAT" => some ["MAT", "MTH", "FIT", "STA"]
  | "MTH" => some ["MTH", "MAT", "FIT", "STA"]
  | "ENG" => some ["ENG", "MTH", "MAT", "MEC"]
  | "SCI" => some ["SCI", "CHE", "PHY", "BIO"]
  | _ => none

/-- `RELATED_PREFIXES[parentPrefix] || [parentPrefix]`. -/
def relatedPrefixesFor (parentCode : String) : List String :=
  (RELATED_PREFIXES (getPrefix parentCode)).getD [getPrefix parentCode]

/-- Inner option loop of `getPrereqDepth`: running minimum over a group's
options (`none` = Infinity), with the early `break` to 0 on a planner hit. -/
def groupMinLoop (planner : List String) (f : String → Nat) :
    List String → Option Nat → Option Nat
  | [], acc => acc
  | opt :: rest, acc =>
    if planner.contains opt then some 0
    else
      groupMinLoop planner f rest
        (some (match acc with
          | none => 1 + f opt
          | some m => min m (1 + f opt)))

/-- Outer group loop of `getPrereqDepth`: maximum over groups of the group
minimum (an Infinity group contributes 0). -/
def prereqGroupsLoop (planner : List String) (f : String → Nat)
    (groups : List Requisite) : Nat :=
  groups.foldl
    (fun maxDepth g =>
      max maxDepth
        (match groupMinLoop planner f g.units none with
          | none => 0
          | some m => m)) 0

/-- One unfolding of the body of `getPrereqDepth` (lines 73-97): the early
returns on a seen or planner code, a missing unit, null requisites or no
prerequisite groups, then the group loop recursing through `f` with the code
added to `seen`. -/
def getPrereqDepthBody (catalog : Catalog) (planner : List String)
    (f : String → List String → Nat) (code : String) (seen : List String) : Nat :=
  if seen.contains code then 0
  else if planner.contains code then 0
  else
    match lookupUnit catalog code with
    | none => 0
    | some u =>
      match u.requisites with
      | none => 0
      | some r =>
        if r.prerequisites.isEmpty then 0
        else prereqGroupsLoop planner (fun opt => f opt (code :: seen)) r.prerequisites

/-- `getPrereqDepth` of PathwayPage, with the cycle-guarding `seen` set made
explicit and the unbounded JS recursion replaced by fuel;
`getPrereqDepthF_stable` below shows any fuel beyond the number of unvisited
catalog keys computes the same value, which is the JS function's value. -/
def getPrereqDepthF (catalog : Catalog) (planner : List String) :
    Nat → String → List String → Nat
  | 0, _, _ => 0
  | fuel+1, code, seen =>
    getPrereqDepthBody catalog planner
      (fun c s => getPrereqDepthF catalog planner fuel c s) code seen

/-- Sufficient fuel for a whole catalog. -/
def catalogFuel (catalog : Catalog) : Nat := catalog.length + 1

/-- `getPrereqDepth(code)` as called with a fresh `seen` set. -/
def getPrereqDepth (catalog : Catalog) (planner : List String) (code : String) : Nat :=
  getPrereqDepthF catalog planner (catalogFuel catalog) code []

/-- The score assigned to one candidate option by `chooseBestOption`. -/
def optionScore (catalog : Catalog) (planner : List String)
    (related : List String) (o : String) : Int :=
  (match related.findIdx? (fun p => p = getPrefix o) with
    | some idx => (10 - (idx : Int)) * 100
    | none => 0)
  - 10 * (getPrereqDepth catalog planner o : Int)
  - (getUnitLevel o : Int)

/-- The `scored` array of `chooseBestOption` before sorting: catalog-known
options paired with their scores, in original order. -/
def scoredOptions (catalog : Catalog) (planner : List String)
    (options : List String) (parentCode : String) : List (String × Int) :=
  (options.filter (fun o => (lookupUnit catalog o).isSome)).map
    (fun o => (o, optionScore catalog planner (relatedPrefixesFor parentCode) o))

/-- Stable insertion step for the descending score sort
(`.sort((a, b) => b.score - a.score)`, stable per the JS spec). -/
def insertScoredDesc (x : String × Int) : List (String × Int) → List (String × Int)
  | [] => [x]
  | y :: ys => if y.2 ≤ x.2 then x :: y :: ys else y :: insertScoredDesc x ys

/-- Stable descending sort by score. -/
def sortScoredDesc (l : List (String × Int)) : List (String × Int) :=
  l.foldr insertScoredDesc []

/-- `chooseBestOption` of PathwayPage (lines 100-134).  The final
`scored[0]?.code || options[0]` falls back to `options[0]` both when no
option is catalog-known and when the winning code is the (falsy) empty
string. -/
def chooseBestOption (catalog : Catalog) (planner : List String)
    (options : List String) (parentCode : String) : Option String :=
  match options with
  | [] => none
  | [o] => some o
  | o₁ :: o₂ :: rest =>
    match (o₁ :: o₂ :: rest).find? (fun o => planner.contains o) with
    | some o => some o
    | none =>
      match sortScoredDesc (scoredOptions catalog planner (o₁ :: o₂ :: rest) parentCode) with
      | [] => some o₁
      | (c, _) :: _ => some (if c = "" then o₁ else c)

/-- An entry of the `result` array of `buildPath` (interface `PathNode`). -/
structure PathNode where
  code : String
  title : String
  level : Nat
  semesters : List String
  depth : Nat
  alternatives : Option (List String)
deriving Repr, DecidableEq

/-- The two mutable accumulators of `buildPath`: the `visited` set and the
`result` array. -/
structure BuildState where
  visited : List String
  result : List PathNode
deriving Repr, DecidableEq

/-- The `alternativesMap` entry stored for `code` on entry (other options of
the same group that are catalog-known), or `none` when no group options were
passed or the group is a singleton. -/
def altsFor (catalog : Catalog) (code : String)
    (groupOptions : Option (List String)) : Option (List String) :=
  match groupOptions with
  | none => none
  | some opts =>
    if 1 < opts.length then
      some (opts.filter (fun opt => opt != code && (lookupUnit catalog opt).isSome))
    else none

/-- One iteration of the `for (const group of prereqGroups)` loop of
`buildRecursive`: recurse into the chosen representative unless it is absent,
falsy, or a planner unit (`rec` is the recursive call at the remaining fuel). -/
def buildGroupStep (catalog : Catalog) (planner : List String)
    (rec : String → Nat → Option (List String) → BuildState → BuildState)
    (code : String) (depth : Nat) (s : BuildState) (group : Requisite) : BuildState :=
  match chooseBestOption catalog planner group.units code with
  | none => s
  | some best =>
    if best = "" then s
    else if planner.contains best then s
    else rec best (depth + 1) (some group.units) s

/-- The final `result.push({...})` of `buildRecursive`: the pushed node
records title, level, parsed semesters, recursion depth and alternatives
exactly as the source does. -/
def buildPush (catalog : Catalog) (code : String) (depth : Nat)
    (groupOptions : Option (List String)) (u : ProcessedUnit) (st₂ : BuildState) :
    BuildState :=
  ⟨st₂.visited,
    st₂.result ++ [⟨code, u.title, getUnitLevel code,
      getSemestersFromOfferings u.offerings, depth,
      altsFor catalog code groupOptions⟩]⟩

/-- One unfolding of the body of `buildRecursive` (lines 140-173): the early
returns on a visited or planner code or a missing unit, then the group loop
from the state with `code` marked visited and the final push of the node. -/
def buildRecursiveBody (catalog : Catalog) (planner : List String)
    (rec : String → Nat → Option (List String) → BuildState → BuildState)
    (code : String) (depth : Nat) (groupOptions : Option (List String))
    (st : BuildState) : BuildState :=
  if st.visited.contains code then st
  else if planner.contains code then st
  else
    match lookupUnit catalog code with
    | none => st
    | some u =>
      buildPush catalog code depth groupOptions u
        ((prereqGroupsOf u.requisites).foldl
          (buildGroupStep catalog planner rec code depth)
          ⟨code :: st.visited, st.result⟩)

/-- `buildRecursive` of PathwayPage, fuelled like `getPrereqDepthF` (here the
`visited` set is shared state, threaded through the group loop). -/
def buildRecursiveF (catalog : Catalog) (planner : List String) :
    Nat → String → Nat → Option (List String) → BuildState → BuildState
  | 0, _, _, _, st => st
  | fuel+1, code, depth, groupOptions, st =>
    buildRecursiveBody catalog planner
      (fun b d g s => buildRecursiveF catalog planner fuel b d g s) code depth
      groupOptions st

/-- Stable insertion step for the final descending depth sort
(`result.sort((a, b) => b.depth - a.depth)`). -/
def insertNodeDesc (x : PathNode) : List PathNode → List PathNode
  | [] => [x]
  | y :: ys => if y.depth ≤ x.depth then x :: y :: ys else y :: insertNodeDesc x ys

/-- Stable descending sort by node depth. -/
def sortNodesDesc (l : List PathNode) : List PathNode :=
  l.foldr insertNodeDesc []

/-- `buildPath` of PathwayPage (lines 63-179): empty for an unknown target,
otherwise the recursive construction sorted deepest-first. -/
def buildPath (catalog : Catalog) (planner : List String) (targetCode : String) :
    List PathNode :=
  match lookupUnit catalog targetCode with
  | none => []
  | some _ =>
    sortNodesDesc
      (buildRecursiveF catalog planner (catalogFuel catalog) targetCode 0 none ⟨[], []⟩).result

/-! ## Pathway scheduler (`scheduledPath`, PathwayPage.tsx lines 216-276) -/

/-- The `currentPeriod` state variable, typed `'S1' | 'S2'` in the source. -/
inductive Period where
  | S1 : Period
  | S2 : Period
deriving Repr, DecidableEq

/-- The string a period compares against the parsed semester tags. -/
def periodStr : Period → String
  | .S1 => "S1"
  | .S2 => "S2"

/-- S1 → S2 in the same year; S2 → S1 of the next year. -/
def nextPeriod : Period → Period
  | .S1 => .S2
  | .S2 => .S1

/-- Year advance matching `nextPeriod`. -/
def nextYear (year : Nat) : Period → Nat
  | .S1 => year
  | .S2 => year + 1

/-- An entry of the pathway schedule (interface `PlannedUnit`, with its
`semester` record flattened). -/
structure PlannedUnit where
  code : String
  title : String
  year : Nat
  period : Period
deriving Repr, DecidableEq

/-- `remaining.splice(remaining.findIndex(n => n.code === code), 1)`:
drop the first node with the given code, or leave the list unchanged. -/
def removeFirstByCode (code : String) : List PathNode → List PathNode
  | [] => []
  | n :: rest => if n.code = code then rest else n :: removeFirstByCode code rest

/-- The `canSchedule` filter predicate of `scheduledPath`: all selected
prereqs already scheduled, and the unit offered this period (an empty
semester list means unknown, assumed available). -/
def spEligible (prereqs : String → List String) (scheduled : List String)
    (period : Period) (node : PathNode) : Bool :=
  (prereqs node.code).all (fun p => scheduled.contains p)
  && (node.semesters.isEmpty || node.semesters.contains (periodStr period))

/-- `canSchedule.slice(0, 4)`: the nodes placed this round. -/
def spTake (prereqs : String → List String) (remaining : List PathNode)
    (scheduled : List String) (period : Period) : List PathNode :=
  (remaining.filter (spEligible prereqs scheduled period)).take 4

/-- `scheduled` after placing this round's nodes. -/
def spScheduledAfter (scheduled : List String) (takes : List PathNode) : List String :=
  takes.foldl (fun s n => n.code :: s) scheduled

/-- `remaining` after removing this round's nodes. -/
def spRemainingAfter (remaining : List PathNode) (takes : List PathNode) : List PathNode :=
  takes.foldl (fun r n => removeFirstByCode n.code r) remaining

/-- Push the round's semester onto the schedule only when it is non-empty. -/
def consIfNonempty {β : Type} (units : List β) (rest : List (List β)) : List (List β) :=
  if units.isEmpty then rest else units :: rest

/-- The `while (remaining.length > 0 && iterations < maxIterations)` loop of
`scheduledPath`, recursing on the number of remaining iterations. -/
def spRounds (prereqs : String → List String) :
    Nat → List PathNode → List String → Nat → Period → List (List PlannedUnit)
  | 0, _, _, _, _ => []
  | k+1, remaining, scheduled, year, period =>
    if remaining.isEmpty then []
    else
      consIfNonempty
        ((spTake prereqs remaining scheduled period).map
          (fun n => ⟨n.code, n.title, year, period⟩))
        (spRounds prereqs k
          (spRemainingAfter remaining (spTake prereqs remaining scheduled period))
          (spScheduledAfter scheduled (spTake prereqs remaining scheduled period))
          (nextYear year period) (nextPeriod period))

/-- `scheduledPath` of PathwayPage: 20 rounds, 4 units per semester, with the
planner codes pre-seeded as scheduled. -/
def scheduledPath (prereqs : String → List String) (pathNodes : List PathNode)
    (plannerCodes : List String) (startYear : Nat) (startSemester : Period) :
    List (List PlannedUnit) :=
  if pathNodes.isEmpty then []
  else spRounds prereqs 20 pathNodes plannerCodes startYear startSemester

/-- The `selectedPrereqs` map of PathwayPage (lines 187-213) for one code:
per prerequisite group, the first option that is in the path or the planner,
kept only when it is not a planner unit (the scheduler reads a missing entry
as `[]`). -/
def selectedPrereqsFor (catalog : Catalog) (planner : List String)
    (pathNodes : List PathNode) (code : String) : List String :=
  match lookupUnit catalog code with
  | none => []
  | some u =>
    (prereqGroupsOf u.requisites).filterMap (fun group =>
      match group.units.find?
        (fun opt => (pathNodes.map PathNode.code).contains opt || planner.contains opt) with
      | none => none
      | some selected => if planner.contains selected then none else some selected)

/-! ## Full-planner scheduler (`scheduledSemesters`, PlannerPage.tsx lines 104-184) -/

/-- A unit stored in the planner (the fields the scheduler reads). -/
structure PlannerUnit where
  code : String
  title : String
  creditPoints : Nat
deriving Repr, DecidableEq

/-- An entry of `ScheduledSemester.units`. -/
structure SchedUnit where
  code : String
  title : String
  creditPoints : Nat
  cost : Nat
deriving Repr, DecidableEq

/-- Interface `ScheduledSemester` of PlannerPage. -/
structure ScheduledSemester where
  year : Nat
  period : Period
  units : List SchedUnit
deriving Repr, DecidableEq

/-- The inline `getPrereqs` of `scheduledSemesters`: per group, the first
option that is in the planner set. -/
def getPrereqsPlanner (catalog : Catalog) (plannerCodeSet : List String)
    (code : String) : List String :=
  match lookupUnit catalog code with
  | none => []
  | some u =>
    match u.requisites with
    | none => []
    | some r =>
      r.prerequisites.filterMap (fun group =>
        group.units.find? (fun opt => plannerCodeSet.contains opt))

/-- The semesters the full planner reads for a unit
(`getSemestersFromOfferings(fullUnit?.offerings)`). -/
def psSemesters (catalog : Catalog) (code : String) : List String :=
  getSemestersFromOfferings ((lookupUnit catalog code).bind (fun u => u.offerings))

/-- The `canSchedule` filter of `scheduledSemesters`: every prereq either
scheduled or not a planner unit at all, and the unit offered this period. -/
def psEligible (catalog : Catalog) (plannerCodeSet : List String)
    (scheduled : List String) (period : Period) (u : PlannerUnit) : Bool :=
  ((getPrereqsPlanner catalog plannerCodeSet u.code).all
    (fun p => scheduled.contains p || !(plannerCodeSet.contains p)))
  && ((psSemesters catalog u.code).isEmpty
    || (psSemesters catalog u.code).contains (periodStr period))

/-- `canSchedule.slice(0, unitsPerSemester)`. -/
def psTake (catalog : Catalog) (plannerCodeSet : List String)
    (remaining : List PlannerUnit) (scheduled : List String) (period : Period)
    (cap : Nat) : List PlannerUnit :=
  (remaining.filter (psEligible catalog plannerCodeSet scheduled period)).take cap

/-- The `semesterUnits` entry built for one placed unit. -/
def psMkUnit (catalog : Catalog) (u : PlannerUnit) : SchedUnit :=
  ⟨u.code, u.title, u.creditPoints,
    getUnitCost ((lookupUnit catalog u.code).map (fun x => x.sca_band)) u.creditPoints⟩

/-- First-match removal on planner units. -/
def removeFirstByCodeP (code : String) : List PlannerUnit → List PlannerUnit
  | [] => []
  | n :: rest => if n.code = code then rest else n :: removeFirstByCodeP code rest

/-- `remaining` after a full-planner round. -/
def psRemainingAfter (remaining : List PlannerUnit) (takes : List PlannerUnit) :
    List PlannerUnit :=
  takes.foldl (fun r n => removeFirstByCodeP n.code r) remaining

/-- `scheduled` after a full-planner round. -/
def psScheduledAfter (scheduled : List String) (takes : List PlannerUnit) : List String :=
  takes.foldl (fun s n => n.code :: s) scheduled

/-- Push a non-empty full-planner round. -/
def psConsRound (year : Nat) (period : Period) (units : List SchedUnit)
    (rest : List ScheduledSemester) : List ScheduledSemester :=
  if units.isEmpty then rest else ⟨year, period, units⟩ :: rest

/-- The round loop of `scheduledSemesters` (30 iterations maximum). -/
def psRounds (catalog : Catalog) (plannerCodeSet : List String) (cap : Nat) :
    Nat → List PlannerUnit → List String → Nat → Period → List ScheduledSemester
  | 0, _, _, _, _ => []
  | k+1, remaining, scheduled, year, period =>
    if remaining.isEmpty then []
    else
      psConsRound year period
        ((psTake catalog plannerCodeSet remaining scheduled period cap).map (psMkUnit catalog))
        (psRounds catalog plannerCodeSet cap k
          (psRemainingAfter remaining (psTake catalog plannerCodeSet remaining scheduled period cap))
          (psScheduledAfter scheduled (psTake catalog plannerCodeSet remaining scheduled period cap))
          (nextYear year period) (nextPeriod period))

/-- `scheduledSemesters` of PlannerPage: plannerCodeSet is the codes of the
planner units, `scheduled` starts empty, 30 rounds. -/
def scheduledSemesters (catalog : Catalog) (units : List PlannerUnit)
    (startYear : Nat) (startPeriod : Period) (unitsPerSemester : Nat) :
    List ScheduledSemester :=
  if units.isEmpty then []
  else
    psRounds catalog (units.map (fun u => u.code)) unitsPerSemester 30 units []
      startYear startPeriod

/-! ## Dependency-graph builder (network.json generation, part_007 lines 374-437) -/

/-- All codes mentioned in a unit's prerequisite groups followed by its
corequisite groups, in loop order. -/
def flatReqRefs (u : ProcessedUnit) : List String :=
  match u.requisites with
  | none => []
  | some r =>
    (r.prerequisites.flatMap (fun g => g.units)) ++ (r.corequisites.flatMap (fun g => g.units))

/-- The referenced codes that pass the `if (data[reqCode])` existence check. -/
def validReqRefs (catalog : Catalog) (u : ProcessedUnit) : List String :=
  (flatReqRefs u).filter (fun r => (lookupUnit catalog r).isSome)

/-- The `links` array: one `{source: reqCode, target: unit.code}` pair per
valid reference, in catalog iteration order. -/
def networkLinks (catalog : Catalog) : List (String × String) :=
  (catalog.map Prod.snd).flatMap (fun u => (validReqRefs catalog u).map (fun r => (r, u.code)))

/-- The accumulated `nodesMap[c].requires` pushes for code `c`. -/
def networkRequires (catalog : Catalog) (c : String) : List String :=
  (catalog.map Prod.snd).flatMap (fun u => if u.code = c then validReqRefs catalog u else [])

/-- The accumulated `nodesMap[r].unlocks` pushes for code `r`. -/
def networkUnlocks (catalog : Catalog) (r : String) : List String :=
  (catalog.map Prod.snd).flatMap
    (fun u => ((validReqRefs catalog u).filter (fun x => x = r)).map (fun _ => u.code))

/-! ## Lemmas about the depth sort (claim C2) -/

theorem sortNodesDesc_cons (y : PathNode) (ys : List PathNode) :
    sortNodesDesc (y :: ys) = insertNodeDesc y (sortNodesDesc ys) := rfl

theorem mem_insertNodeDesc (x a : PathNode) (l : List PathNode) :
    a ∈ insertNodeDesc x l ↔ a = x ∨ a ∈ l := by
  induction l with
  | nil => simp [insertNodeDesc]
  | cons y ys ih =>
    unfold insertNodeDesc
    split
    · simp
    · simp only [List.mem_cons, ih]
      tauto

theorem mem_sortNodesDesc (a : PathNode) (l : List PathNode) :
    a ∈ sortNodesDesc l ↔ a ∈ l := by
  induction l with
  | nil => simp [sortNodesDesc]
  | cons y ys ih =>
    rw [sortNodesDesc_cons, mem_insertNodeDesc]
    simp only [List.mem_cons, ih]

theorem insertNodeDesc_sorted (x : PathNode) (l : List PathNode)
    (h : l.Pairwise (fun a b => b.depth ≤ a.depth)) :
    (insertNodeDesc x l).Pairwise (fun a b => b.depth ≤ a.depth) := by
  induction l with
  | nil => simp [insertNodeDesc]
  | cons y ys ih =>
    rw [List.pairwise_cons] at h
    obtain ⟨hy, hys⟩ := h
    unfold insertNodeDesc
    split
    · rename_i hle
      rw [List.pairwise_cons]
      refine ⟨?_, ?_⟩
      · intro b hb
        rcases List.mem_cons.mp hb with rfl | hb'
        · exact hle
        · exact le_trans (hy b hb') hle
      · rw [List.pairwise_cons]
        exact ⟨hy, hys⟩
    · rename_i hgt
      rw [List.pairwise_cons]
      refine ⟨?_, ih hys⟩
      intro b hb
      rcases (mem_insertNodeDesc x b ys).mp hb with rfl | hb'
      · omega
      · exact hy b hb'

theorem sortNodesDesc_sorted (l : List PathNode) :
    (sortNodesDesc l).Pairwise (fun a b => b.depth ≤ a.depth) := by
  induction l with
  | nil => simp [sortNodesDesc]
  | cons y ys ih =>
    rw [sortNodesDesc_cons]
    exact insertNodeDesc_sorted y (sortNodesDesc ys) ih

theorem sorted_last_unique_min :
    ∀ (l : List PathNode) (t : PathNode),
      l.Pairwise (fun a b => b.depth ≤ a.depth) →
      t ∈ l → t.depth = 0 → (∀ n ∈ l, n = t ∨ 1 ≤ n.depth) →
      l.getLast? = some t
  | [], t, _, hmem, _, _ => absurd hmem (List.not_mem_nil t)
  | [a], t, _, hmem, _, _ => by
    simp only [List.mem_singleton] at hmem
    simp [hmem]
  | a :: b :: rest, t, hs, hmem, ht, hmin => by
    rw [List.getLast?_cons_cons]
    rw [List.pairwise_cons] at hs
    obtain ⟨ha, hs'⟩ := hs
    rcases List.mem_cons.mp hmem with rfl | hmem'
    · rw [List.getLast?_eq_getLast (b :: rest) (List.cons_ne_nil b rest)]
      rcases hmin ((b :: rest).getLast (List.cons_ne_nil b rest))
          (List.mem_cons_of_mem t (List.getLast_mem (List.cons_ne_nil b rest))) with hzt | hz1
      · rw [hzt]
      · exfalso
        have := ha _ (List.getLast_mem (List.cons_ne_nil b rest))
        omega
    · exact sorted_last_unique_min (b :: rest) t hs' hmem' ht
        (fun n hn => hmin n (List.mem_cons_of_mem a hn))

/-! ## Structural invariant of `buildRecursive` (claims C2, C6) -/

theorem buildGroupStep_fold_result (catalog : Catalog) (planner : List String)
    (rec : String → Nat → Option (List String) → BuildState → BuildState)
    (hrec : ∀ b d g s, ∃ added,
      (rec b d g s).result = s.result ++ added ∧ ∀ n ∈ added, d ≤ n.depth)
    (code : String) (depth : Nat) :
    ∀ (groups : List Requisite) (s : BuildState),
      ∃ added,
        (groups.foldl (buildGroupStep catalog planner rec code depth) s).result
            = s.result ++ added
        ∧ ∀ n ∈ added, depth + 1 ≤ n.depth := by
  intro groups
  induction groups with
  | nil =>
    intro s
    exact ⟨[], by simp, by simp⟩
  | cons g gs ihg =>
    intro s
    rw [List.foldl_cons]
    have hstep : ∃ added₁,
        (buildGroupStep catalog planner rec code depth s g).result = s.result ++ added₁
        ∧ ∀ n ∈ added₁, depth + 1 ≤ n.depth := by
      unfold buildGroupStep
      split
      · exact ⟨[], by simp, by simp⟩
      · split
        · exact ⟨[], by simp, by simp⟩
        · split
          · exact ⟨[], by simp, by simp⟩
          · rename_i best hbest h1 h2
            exact hrec best (depth + 1) (some g.units) s
    obtain ⟨a₁, h₁, h₂⟩ := hstep
    obtain ⟨a₂, h₃, h₄⟩ := ihg (buildGroupStep catalog planner rec code depth s g)
    refine ⟨a₁ ++ a₂, ?_, ?_⟩
    · rw [h₃, h₁, List.append_assoc]
    · intro n hn
      rcases List.mem_append.mp hn with h | h
      · exact h₂ n h
      · exact h₄ n h

theorem buildRecursiveF_result (catalog : Catalog) (planner : List String) :
    ∀ (fuel : Nat) (code : String) (depth : Nat) (gopts : Option (List String))
      (st : BuildState),
      ∃ added,
        (buildRecursiveF catalog planner fuel code depth gopts st).result
            = st.result ++ added
        ∧ (∀ n ∈ added, depth ≤ n.depth)
        ∧ (added = []
            ∨ ∃ inner node, added = inner ++ [node] ∧ node.code = code
                ∧ node.depth = depth ∧ ∀ n ∈ inner, depth + 1 ≤ n.depth) := by
  intro fuel
  induction fuel with
  | zero =>
    intro code depth gopts st
    exact ⟨[], by simp [buildRecursiveF], by simp, Or.inl rfl⟩
  | succ fuel ih =>
    intro code depth gopts st
    rw [buildRecursiveF]
    unfold buildRecursiveBody
    split
    · exact ⟨[], by simp, by simp, Or.inl rfl⟩
    · split
      · exact ⟨[], by simp, by simp, Or.inl rfl⟩
      · split
        · exact ⟨[], by simp, by simp, Or.inl rfl⟩
        · rename_i u hu
          have hrec : ∀ b d g s, ∃ added,
              (buildRecursiveF catalog planner fuel b d g s).result = s.result ++ added
              ∧ ∀ n ∈ added, d ≤ n.depth := by
            intro b d g s
            obtain ⟨added, h1, h2, _⟩ := ih b d g s
            exact ⟨added, h1, h2⟩
          obtain ⟨addedG, hG1, hG2⟩ :=
            buildGroupStep_fold_result catalog planner
              (fun b d g s => buildRecursiveF catalog planner fuel b d g s) hrec code depth
              (prereqGroupsOf u.requisites) ⟨code :: st.visited, st.result⟩
          refine ⟨addedG ++ [⟨code, u.title, getUnitLevel code,
            getSemestersFromOfferings u.offerings, depth,
            altsFor catalog code gopts⟩], ?_, ?_, ?_⟩
          · unfold buildPush
            rw [hG1]
            simp [List.append_assoc]
          · intro n hn
            rcases List.mem_append.mp hn with h | h
            · exact le_trans (Nat.le_succ depth) (hG2 n h)
            · rcases List.mem_singleton.mp h with rfl
              exact Nat.le_refl depth
          · exact Or.inr ⟨addedG, _, rfl, rfl, rfl, hG2⟩

/-- Claim C2.  `buildPath` returns the empty sequence when the target is
unknown to the catalog or already in the planner set; its output is ordered
deepest-first (non-increasing recursion depth); and a non-empty output ends
with the target (at depth 0). -/
theorem buildPath_spec (catalog : Catalog) (planner : List String) (target : String) :
    (lookupUnit catalog target = none → buildPath catalog planner target = [])
    ∧ (planner.contains target = true → buildPath catalog planner target = [])
    ∧ (buildPath catalog planner target).Pairwise (fun a b => b.depth ≤ a.depth)
    ∧ (buildPath catalog planner target ≠ [] →
        ∃ node, (buildPath catalog planner target).getLast? = some node
          ∧ node.code = target ∧ node.depth = 0) := by
  refine ⟨?_, ?_, ?_, ?_⟩
  · intro h
    unfold buildPath
    rw [h]
  · intro h
    unfold buildPath
    cases hl : lookupUnit catalog target with
    | none => rfl
    | some u =>
      have hempty : (buildRecursiveF catalog planner (catalogFuel catalog) target 0 none
          ⟨[], []⟩).result = [] := by
        unfold catalogFuel
        rw [buildRecursiveF]
        unfold buildRecursiveBody
        rw [if_neg (by simp)]
        rw [if_pos h]
      rw [hempty]
      rfl
  · unfold buildPath
    cases hl : lookupUnit catalog target with
    | none => simp
    | some u => exact sortNodesDesc_sorted _
  · intro hne
    unfold buildPath at hne ⊢
    split
    · rename_i heq
      simp only [heq] at hne
      exact absurd rfl hne
    · rename_i u heq
      simp only [heq] at hne
      obtain ⟨added, h1, h2, h3⟩ :=
        buildRecursiveF_result catalog planner (catalogFuel catalog) target 0 none ⟨[], []⟩
      simp only [List.nil_append] at h1
      rcases h3 with hnil | ⟨inner, node, hdecomp, hcode, hdepth, hinner⟩
      · rw [h1, hnil] at hne
        exact absurd rfl hne
      · refine ⟨node, ?_, hcode, hdepth⟩
        apply sorted_last_unique_min _ node (sortNodesDesc_sorted _)
        · rw [mem_sortNodesDesc, h1, hdecomp]
          simp
        · exact hdepth
        · intro n hn
          rw [mem_sortNodesDesc, h1, hdecomp] at hn
          rcases List.mem_append.mp hn with h | h
          · exact Or.inr (hinner n h)
          · exact Or.inl (List.mem_singleton.mp h)

/-! ## A small concrete catalog for witnesses (mirroring the repository's
test fixtures in PathwayPage.test.ts) -/

/-- A minimal unit record for concrete examples. -/
def demoUnit (code title : String) (req : Option UnitRequisites) : ProcessedUnit :=
  ⟨code, title, "6", "2", "FIT", none, req⟩

/-- A small catalog in the shape of the repository's test mock data. -/
def demoCatalog : Catalog :=
  [("FIT2004", demoUnit "FIT2004" "Algorithms"
      (some ⟨false, [], [], [⟨1, ["FIT1008"]⟩, ⟨1, ["MAT1830", "ENG1005"]⟩], 0⟩)),
   ("FIT1008", demoUnit "FIT1008" "Fundamentals"
      (some ⟨false, [], [], [⟨1, ["FIT1045"]⟩], 0⟩)),
   ("FIT1045", demoUnit "FIT1045" "Intro" none),
   ("MAT1830", demoUnit "MAT1830" "Discrete" none),
   ("ENG1005", demoUnit "ENG1005" "EngMath" none)]

/-- Witness for C2 at the demo catalog: unknown target and already-satisfied
target give the empty pathway; a real resolution ends with the target. -/
theorem buildPath_spec_witness :
    buildPath demoCatalog [] "NOPE1234" = []
    ∧ buildPath demoCatalog ["FIT2004"] "FIT2004" = []
    ∧ (∃ node, (buildPath demoCatalog [] "FIT2004").getLast? = some node
        ∧ node.code = "FIT2004" ∧ node.depth = 0) :=
  ⟨(buildPath_spec demoCatalog [] "NOPE1234").1 (by decide),
   (buildPath_spec demoCatalog ["FIT2004"] "FIT2004").2.1 (by decide),
   (buildPath_spec demoCatalog [] "FIT2004").2.2.2 (by decide)⟩

/-! ## Termination of the fuelled recursions (claim C6)

The JS recursions are guarded by visited sets: every recursive call adds a
catalog key to the set, so the number of catalog keys not yet visited is a
strictly decreasing measure.  The lemmas below show the fuelled embeddings
stabilise once the fuel exceeds that measure, which is exactly the statement
that the source recursions terminate on every catalog, cyclic ones included. -/

/-- Number of catalog keys not yet in the visited set. -/
def keysLeft (catalog : Catalog) (seen : List String) : Nat :=
  ((catalog.map Prod.fst).filter (fun k => !(seen.contains k))).length

theorem length_filter_lt {α : Type} (l : List α) (p q : α → Bool)
    (himp : ∀ a, p a = true → q a = true) (a : α) (ha : a ∈ l)
    (hqa : q a = true) (hpa : p a = false) :
    (l.filter p).length < (l.filter q).length := by
  induction l with
  | nil => cases ha
  | cons x xs ih =>
    rcases List.mem_cons.mp ha with rfl | hmem
    · simp only [List.filter_cons, hpa, hqa]
      simp only [Bool.false_eq_true, if_false, if_true, List.length_cons]
      exact Nat.lt_succ_of_le (length_filter_mono xs p q himp)
    · cases hpx : p x
      · cases hqx : q x
        · simp only [List.filter_cons, hpx, hqx, Bool.false_eq_true, if_false]
          exact ih hmem
        · simp only [List.filter_cons, hpx, hqx, Bool.false_eq_true, if_false, if_true,
            List.length_cons]
          exact Nat.lt_succ_of_lt (ih hmem)
      · have hqx := himp x hpx
        simp only [List.filter_cons, hpx, hqx, if_true, List.length_cons]
        exact Nat.succ_lt_succ (ih hmem)

theorem lookup_some_mem_keys :
    ∀ (catalog : Catalog) (code : String) (u : ProcessedUnit),
      lookupUnit catalog code = some u → code ∈ catalog.map Prod.fst
  | [], _, _, h => by cases h
  | (k, v) :: rest, code, u, h => by
    unfold lookupUnit at h
    split at h
    · rename_i hk
      simp [hk]
    · simp only [List.map_cons, List.mem_cons]
      exact Or.inr (lookup_some_mem_keys rest code u h)

theorem contains_cons_self (code : String) (seen : List String) :
    (code :: seen).contains code = true := by
  simp [List.contains_cons]

theorem contains_iff (l : List String) (a : String) : l.contains a = true ↔ a ∈ l :=
  List.elem_iff

theorem contains_cons_elim (code : String) (seen : List String) (a : String)
    (h : (code :: seen).contains a = false) : seen.contains a = false := by
  cases hc : seen.contains a
  · rfl
  · exfalso
    have : a ∈ code :: seen := List.mem_cons_of_mem code (contains_iff seen a |>.mp hc)
    rw [(contains_iff _ a).mpr this] at h
    cases h

theorem keysLeft_lt (catalog : Catalog) (code : String) (seen : List String)
    (hkey : code ∈ catalog.map Prod.fst) (hseen : seen.contains code = false) :
    keysLeft catalog (code :: seen) < keysLeft catalog seen := by
  unfold keysLeft
  refine length_filter_lt (catalog.map Prod.fst) _ _ ?_ code hkey ?_ ?_
  · intro a ha
    cases hc : (code :: seen).contains a
    · rw [contains_cons_elim code seen a hc]
      rfl
    · rw [hc] at ha
      simp at ha
  · rw [hseen]
    rfl
  · rw [contains_cons_self]
    rfl

theorem keysLeft_anti (catalog : Catalog) (seen seen' : List String)
    (hsub : ∀ x, x ∈ seen → x ∈ seen') :
    keysLeft catalog seen' ≤ keysLeft catalog seen := by
  unfold keysLeft
  apply length_filter_mono
  intro a ha
  cases h : seen.contains a
  · rfl
  · exfalso
    have hmem : seen'.contains a = true :=
      (contains_iff seen' a).mpr (hsub a ((contains_iff seen a).mp h))
    rw [hmem] at ha
    simp at ha

theorem keysLeft_le (catalog : Catalog) (seen : List String) :
    keysLeft catalog seen ≤ catalog.length := by
  unfold keysLeft
  calc ((catalog.map Prod.fst).filter (fun k => !(seen.contains k))).length
      ≤ (catalog.map Prod.fst).length := List.length_filter_le _ _
    _ = catalog.length := List.length_map _ _

/-! Congruence of the `getPrereqDepth` loops in the recursive call. -/

theorem groupMinLoop_congr (planner : List String) (f₁ f₂ : String → Nat)
    (h : ∀ o, f₁ o = f₂ o) :
    ∀ (l : List String) (acc : Option Nat),
      groupMinLoop planner f₁ l acc = groupMinLoop planner f₂ l acc
  | [], _ => rfl
  | opt :: rest, acc => by
    unfold groupMinLoop
    split
    · rfl
    · rw [h opt]
      exact groupMinLoop_congr planner f₁ f₂ h rest _

theorem prereqGroupsLoop_congr (planner : List String) (f₁ f₂ : String → Nat)
    (h : ∀ o, f₁ o = f₂ o) (groups : List Requisite) :
    prereqGroupsLoop planner f₁ groups = prereqGroupsLoop planner f₂ groups := by
  unfold prereqGroupsLoop
  have hfun : (fun (maxDepth : Nat) (g : Requisite) =>
      max maxDepth (match groupMinLoop planner f₁ g.units none with
        | none => 0
        | some m => m))
      = (fun (maxDepth : Nat) (g : Requisite) =>
      max maxDepth (match groupMinLoop planner f₂ g.units none with
        | none => 0
        | some m => m)) := by
    funext m g
    rw [groupMinLoop_congr planner f₁ f₂ h g.units none]
  rw [hfun]

theorem getPrereqDepthBody_congr (catalog : Catalog) (planner : List String)
    (f₁ f₂ : String → List String → Nat) (code : String) (seen : List String)
    (h : seen.contains code = false → (∃ u, lookupUnit catalog code = some u) →
      ∀ opt, f₁ opt (code :: seen) = f₂ opt (code :: seen)) :
    getPrereqDepthBody catalog planner f₁ code seen
      = getPrereqDepthBody catalog planner f₂ code seen := by
  unfold getPrereqDepthBody
  split
  · rfl
  · rename_i h1
    split
    · rfl
    · split
      · rfl
      · rename_i u hu
        split
        · rfl
        · split
          · rfl
          · apply prereqGroupsLoop_congr
            intro opt
            exact h (Bool.of_not_eq_true h1) ⟨u, hu⟩ opt

theorem getPrereqDepthF_stable (catalog : Catalog) (planner : List String) :
    ∀ (fuel : Nat) (code : String) (seen : List String),
      keysLeft catalog seen < fuel →
      getPrereqDepthF catalog planner (fuel + 1) code seen
        = getPrereqDepthF catalog planner fuel code seen := by
  intro fuel
  induction fuel with
  | zero => intro code seen h; omega
  | succ fuel ih =>
    intro code seen hlt
    rw [getPrereqDepthF, getPrereqDepthF]
    apply getPrereqDepthBody_congr
    intro h1 hu opt
    apply ih
    obtain ⟨u, hu⟩ := hu
    have hkey := lookup_some_mem_keys catalog code u hu
    have hdec := keysLeft_lt catalog code seen hkey h1
    omega

theorem getPrereqDepthF_stable_ge (catalog : Catalog) (planner : List String)
    (code : String) (seen : List String) :
    ∀ fuel, keysLeft catalog seen < fuel →
      getPrereqDepthF catalog planner fuel code seen
        = getPrereqDepthF catalog planner (keysLeft catalog seen + 1) code seen := by
  intro fuel
  induction fuel with
  | zero => intro h; omega
  | succ fuel ih =>
    intro hlt
    by_cases h : keysLeft catalog seen < fuel
    · rw [getPrereqDepthF_stable catalog planner fuel code seen h]
      exact ih h
    · have : fuel = keysLeft catalog seen := by omega
      rw [this]

/-! Visited-set growth and stabilisation of `buildRecursiveF`. -/

theorem buildGroupStep_fold_visited (catalog : Catalog) (planner : List String)
    (rec : String → Nat → Option (List String) → BuildState → BuildState)
    (hrec : ∀ b d g s x, x ∈ s.visited → x ∈ (rec b d g s).visited)
    (code : String) (depth : Nat) :
    ∀ (groups : List Requisite) (s : BuildState) (x : String),
      x ∈ s.visited →
      x ∈ (groups.foldl (buildGroupStep catalog planner rec code depth) s).visited := by
  intro groups
  induction groups with
  | nil => intro s x hx; exact hx
  | cons g gs ihg =>
    intro s x hx
    rw [List.foldl_cons]
    apply ihg
    unfold buildGroupStep
    split
    · exact hx
    · split
      · exact hx
      · split
        · exact hx
        · exact hrec _ _ _ _ _ hx

theorem buildRecursiveF_visited (catalog : Catalog) (planner : List String) :
    ∀ (fuel : Nat) (code : String) (depth : Nat) (gopts : Option (List String))
      (st : BuildState) (x : String),
      x ∈ st.visited →
      x ∈ (buildRecursiveF catalog planner fuel code depth gopts st).visited := by
  intro fuel
  induction fuel with
  | zero => intro code depth gopts st x hx; simpa [buildRecursiveF] using hx
  | succ fuel ih =>
    intro code depth gopts st x hx
    rw [buildRecursiveF]
    unfold buildRecursiveBody
    split
    · exact hx
    · split
      · exact hx
      · split
        · exact hx
        · unfold buildPush
          simp only []
          apply buildGroupStep_fold_visited catalog planner _
            (fun b d g s y hy => ih b d g s y hy) code depth
          exact List.mem_cons_of_mem code hx

theorem buildGroupStep_fold_stable (catalog : Catalog) (planner : List String)
    (fuel : Nat) (code : String) (depth : Nat)
    (ih : ∀ code depth gopts st, keysLeft catalog st.visited < fuel →
      buildRecursiveF catalog planner (fuel + 1) code depth gopts st
        = buildRecursiveF catalog planner fuel code depth gopts st) :
    ∀ (groups : List Requisite) (s : BuildState),
      keysLeft catalog s.visited < fuel →
      groups.foldl (buildGroupStep catalog planner
          (fun b d g s => buildRecursiveF catalog planner (fuel + 1) b d g s) code depth) s
        = groups.foldl (buildGroupStep catalog planner
          (fun b d g s => buildRecursiveF catalog planner fuel b d g s) code depth) s := by
  intro groups
  induction groups with
  | nil => intro s _; rfl
  | cons g gs ihg =>
    intro s hs
    rw [List.foldl_cons, List.foldl_cons]
    have hstep : buildGroupStep catalog planner
        (fun b d g s => buildRecursiveF catalog planner (fuel + 1) b d g s) code depth s g
        = buildGroupStep catalog planner
        (fun b d g s => buildRecursiveF catalog planner fuel b d g s) code depth s g := by
      unfold buildGroupStep
      split
      · rfl
      · split
        · rfl
        · split
          · rfl
          · exact ih _ _ _ s hs
    rw [hstep]
    apply ihg
    have hgrow : ∀ x, x ∈ s.visited →
        x ∈ (buildGroupStep catalog planner
          (fun b d g s => buildRecursiveF catalog planner fuel b d g s) code depth s g).visited := by
      intro x hx
      unfold buildGroupStep
      split
      · exact hx
      · split
        · exact hx
        · split
          · exact hx
          · exact buildRecursiveF_visited catalog planner fuel _ _ _ s x hx
    have := keysLeft_anti catalog s.visited _ hgrow
    omega

theorem buildRecursiveBody_congr (catalog : Catalog) (planner : List String)
    (rec₁ rec₂ : String → Nat → Option (List String) → BuildState → BuildState)
    (code : String) (depth : Nat) (gopts : Option (List String)) (st : BuildState)
    (h : ∀ u, st.visited.contains code = false → lookupUnit catalog code = some u →
      (prereqGroupsOf u.requisites).foldl
          (buildGroupStep catalog planner rec₁ code depth) ⟨code :: st.visited, st.result⟩
        = (prereqGroupsOf u.requisites).foldl
          (buildGroupStep catalog planner rec₂ code depth) ⟨code :: st.visited, st.result⟩) :
    buildRecursiveBody catalog planner rec₁ code depth gopts st
      = buildRecursiveBody catalog planner rec₂ code depth gopts st := by
  unfold buildRecursiveBody
  split
  · rfl
  · rename_i h1
    split
    · rfl
    · split
      · rfl
      · rename_i u hu
        unfold buildPush
        rw [h u (Bool.of_not_eq_true h1) hu]

theorem buildRecursiveF_stable (catalog : Catalog) (planner : List String) :
    ∀ (fuel : Nat) (code : String) (depth : Nat) (gopts : Option (List String))
      (st : BuildState),
      keysLeft catalog st.visited < fuel →
      buildRecursiveF catalog planner (fuel + 1) code depth gopts st
        = buildRecursiveF catalog planner fuel code depth gopts st := by
  intro fuel
  induction fuel with
  | zero => intro code depth gopts st h; omega
  | succ fuel ih =>
    intro code depth gopts st hlt
    rw [buildRecursiveF, buildRecursiveF]
    apply buildRecursiveBody_congr
    intro u h1 hu
    have hkey := lookup_some_mem_keys catalog code u hu
    have hdec := keysLeft_lt catalog code st.visited hkey h1
    exact buildGroupStep_fold_stable catalog planner fuel code depth
      (fun c d g s h => ih c d g s h) (prereqGroupsOf u.requisites)
      ⟨code :: st.visited, st.result⟩
      (by show keysLeft catalog (code :: st.visited) < fuel; omega)

theorem buildRecursiveF_stable_ge (catalog : Catalog) (planner : List String)
    (code : String) (depth : Nat) (gopts : Option (List String)) (st : BuildState) :
    ∀ fuel, keysLeft catalog st.visited < fuel →
      buildRecursiveF catalog planner fuel code depth gopts st
        = buildRecursiveF catalog planner (keysLeft catalog st.visited + 1) code depth gopts st := by
  intro fuel
  induction fuel with
  | zero => intro h; omega
  | succ fuel ih =>
    intro hlt
    by_cases h : keysLeft catalog st.visited < fuel
    · rw [buildRecursiveF_stable catalog planner fuel code depth gopts st h]
      exact ih h
    · have : fuel = keysLeft catalog st.visited := by omega
      rw [this]

/-- Claim C6.  Pathway resolution terminates on every catalog, including
cyclic prerequisite data: with any fuel beyond the number of catalog keys,
the fuelled embeddings of `getPrereqDepth` and `buildRecursive` compute one
fixed value — the value of the visited-set-guarded JS recursion — so
`buildPath` is a total function returning a finite sequence. -/
theorem pathway_terminates (catalog : Catalog) (planner : List String)
    (code target : String) (fuel₁ fuel₂ : Nat)
    (h₁ : catalog.length < fuel₁) (h₂ : catalog.length < fuel₂) :
    getPrereqDepthF catalog planner fuel₁ code []
      = getPrereqDepthF catalog planner fuel₂ code []
    ∧ buildRecursiveF catalog planner fuel₁ target 0 none ⟨[], []⟩
      = buildRecursiveF catalog planner fuel₂ target 0 none ⟨[], []⟩ := by
  have hb : keysLeft catalog [] ≤ catalog.length := keysLeft_le catalog []
  constructor
  · rw [getPrereqDepthF_stable_ge catalog planner code [] fuel₁ (by omega),
      getPrereqDepthF_stable_ge catalog planner code [] fuel₂ (by omega)]
  · rw [buildRecursiveF_stable_ge catalog planner target 0 none ⟨[], []⟩ fuel₁
        (by simp only []; omega),
      buildRecursiveF_stable_ge catalog planner target 0 none ⟨[], []⟩ fuel₂
        (by simp only []; omega)]

/-- A two-unit catalog with a prerequisite cycle (A requires B, B requires A). -/
def cycCatalog : Catalog :=
  [("AAA1111", demoUnit "AAA1111" "CycleA" (some ⟨false, [], [], [⟨1, ["BBB2222"]⟩], 0⟩)),
   ("BBB2222", demoUnit "BBB2222" "CycleB" (some ⟨false, [], [], [⟨1, ["AAA1111"]⟩], 0⟩))]

/-- Witness for C6: on the cyclic catalog the computations at fuel 3 and
fuel 50 agree, and the resolved pathway is the finite sequence [BBB2222,
AAA1111]. -/
theorem pathway_terminates_witness :
    (getPrereqDepthF cycCatalog [] 3 "AAA1111" []
        = getPrereqDepthF cycCatalog [] 50 "AAA1111" []
      ∧ buildRecursiveF cycCatalog [] 3 "AAA1111" 0 none ⟨[], []⟩
        = buildRecursiveF cycCatalog [] 50 "AAA1111" 0 none ⟨[], []⟩)
    ∧ (buildPath cycCatalog [] "AAA1111").map (fun n => n.code)
        = ["BBB2222", "AAA1111"] :=
  ⟨pathway_terminates cycCatalog [] "AAA1111" "AAA1111" 3 50 (by decide) (by decide),
    by decide⟩

/-! ## Dependency-graph edges (claim C7)

The generation loop checks `if (data[reqCode])` — existence in the catalog —
but never compares `reqCode` against `unit.code`, so a unit listing itself
among its own requisite options produces a self-edge. -/

/-- A catalog whose single unit lists itself as a prerequisite option. -/
def selfCatalog : Catalog :=
  [("AAA1111", demoUnit "AAA1111" "SelfRef" (some ⟨false, [], [], [⟨1, ["AAA1111"]⟩], 0⟩))]

/-- Counterexample for C7 as stated: a self-reference is NOT dropped; the
builder records the edge AAA1111 → AAA1111 together with the matching
`requires` and `unlocks` entries. -/
theorem network_selfloop_counterexample :
    ("AAA1111", "AAA1111") ∈ networkLinks selfCatalog
    ∧ "AAA1111" ∈ networkRequires selfCatalog "AAA1111"
    ∧ "AAA1111" ∈ networkUnlocks selfCatalog "AAA1111" := by
  refine ⟨?_, ?_, ?_⟩ <;> decide

/-- Amended C7.  The builder records the edge r → u exactly when r appears in
some prerequisite or corequisite group of u and r exists in the catalog —
including r = u.code: only codes absent from the catalog are dropped
(silently, with no error).  `requires` and `unlocks` record exactly the same
edges. -/
theorem networkLinks_spec (catalog : Catalog) (r c : String) :
    ((r, c) ∈ networkLinks catalog ↔
      ∃ u ∈ catalog.map Prod.snd, u.code = c ∧ r ∈ flatReqRefs u
        ∧ (lookupUnit catalog r).isSome = true)
    ∧ (r ∈ networkRequires catalog c ↔ (r, c) ∈ networkLinks catalog)
    ∧ (c ∈ networkUnlocks catalog r ↔ (r, c) ∈ networkLinks catalog) := by
  have hlinks : ∀ r' c', (r', c') ∈ networkLinks catalog ↔
      ∃ u ∈ catalog.map Prod.snd, u.code = c' ∧ r' ∈ flatReqRefs u
        ∧ (lookupUnit catalog r').isSome = true := by
    intro r' c'
    unfold networkLinks validReqRefs
    rw [List.mem_flatMap]
    constructor
    · rintro ⟨u, hu, hmem⟩
      rw [List.mem_map] at hmem
      obtain ⟨x, hx, hpair⟩ := hmem
      rw [List.mem_filter] at hx
      cases hpair
      exact ⟨u, hu, rfl, hx.1, hx.2⟩
    · rintro ⟨u, hu, hcode, href, hsome⟩
      refine ⟨u, hu, ?_⟩
      rw [List.mem_map]
      exact ⟨r', List.mem_filter.mpr ⟨href, hsome⟩, by rw [hcode]⟩
  refine ⟨hlinks r c, ?_, ?_⟩
  · rw [hlinks r c]
    unfold networkRequires validReqRefs
    rw [List.mem_flatMap]
    constructor
    · rintro ⟨u, hu, hmem⟩
      split at hmem
      · rename_i hcode
        rw [List.mem_filter] at hmem
        exact ⟨u, hu, hcode, hmem.1, hmem.2⟩
      · cases hmem
    · rintro ⟨u, hu, hcode, href, hsome⟩
      refine ⟨u, hu, ?_⟩
      rw [if_pos hcode, List.mem_filter]
      exact ⟨href, hsome⟩
  · rw [hlinks r c]
    unfold networkUnlocks validReqRefs
    rw [List.mem_flatMap]
    constructor
    · rintro ⟨u, hu, hmem⟩
      rw [List.mem_map] at hmem
      obtain ⟨x, hx, hcode⟩ := hmem
      rw [List.mem_filter] at hx
      rw [List.mem_filter] at hx
      obtain ⟨⟨href, hsome⟩, hxr⟩ := hx
      have hxr' : x = r := by simpa using hxr
      subst hxr'
      exact ⟨u, hu, hcode, href, hsome⟩
    · rintro ⟨u, hu, hcode, href, hsome⟩
      refine ⟨u, hu, ?_⟩
      rw [List.mem_map]
      refine ⟨r, ?_, hcode⟩
      rw [List.mem_filter, List.mem_filter]
      exact ⟨⟨href, hsome⟩, by simp⟩

/-! ## Scheduler lemmas (claims C5, C10) -/

theorem spTake_mem (prereqs : String → List String) (remaining : List PathNode)
    (scheduled : List String) (period : Period) (x : PathNode)
    (hx : x ∈ spTake prereqs remaining scheduled period) :
    x ∈ remaining ∧ spEligible prereqs scheduled period x = true := by
  unfold spTake at hx
  have hx' := List.take_subset _ _ hx
  exact ⟨(List.mem_filter.mp hx').1, (List.mem_filter.mp hx').2⟩

theorem removeFirstByCode_subset (code : String) :
    ∀ (l : List PathNode) (x : PathNode), x ∈ removeFirstByCode code l → x ∈ l
  | [], x, h => by cases h
  | n :: rest, x, h => by
    unfold removeFirstByCode at h
    split at h
    · exact List.mem_cons_of_mem n h
    · rcases List.mem_cons.mp h with rfl | h'
      · exact List.mem_cons_self _ _
      · exact List.mem_cons_of_mem n (removeFirstByCode_subset code rest x h')

theorem spRemainingAfter_subset :
    ∀ (takes remaining : List PathNode) (x : PathNode),
      x ∈ spRemainingAfter remaining takes → x ∈ remaining
  | [], _, _, h => h
  | t :: ts, remaining, x, h => by
    unfold spRemainingAfter at h
    rw [List.foldl_cons] at h
    exact removeFirstByCode_subset t.code remaining x
      (spRemainingAfter_subset ts (removeFirstByCode t.code remaining) x h)

theorem spScheduledAfter_mem :
    ∀ (takes : List PathNode) (scheduled : List String) (p : String),
      (spScheduledAfter scheduled takes).contains p = true →
      scheduled.contains p = true ∨ ∃ node ∈ takes, node.code = p
  | [], _, _, h => Or.inl h
  | t :: ts, scheduled, p, h => by
    unfold spScheduledAfter at h
    rw [List.foldl_cons] at h
    rcases spScheduledAfter_mem ts (t.code :: scheduled) p h with h' | ⟨node, hn, hc⟩
    · rcases List.mem_cons.mp ((contains_iff _ p).mp h') with rfl | hmem
      · exact Or.inr ⟨t, List.mem_cons_self t ts, rfl⟩
      · exact Or.inl ((contains_iff _ p).mpr hmem)
    · exact Or.inr ⟨node, List.mem_cons_of_mem t hn, hc⟩

/-- Claim C5, pathway side: the round loop only places a unit when all its
listed dependencies are already in the `scheduled` set, so each dependency is
either pre-seeded or placed in an earlier-or-equal-indexed semester. -/
theorem spRounds_ordering (prereqs : String → List String) :
    ∀ (k : Nat) (remaining : List PathNode) (scheduled : List String) (year : Nat)
      (period : Period) (j : Nat) (sem : List PlannedUnit) (u : PlannedUnit) (p : String),
      (spRounds prereqs k remaining scheduled year period)[j]? = some sem →
      u ∈ sem → p ∈ prereqs u.code →
      scheduled.contains p = true
      ∨ ∃ i, i ≤ j
          ∧ ∃ sem', (spRounds prereqs k remaining scheduled year period)[i]? = some sem'
          ∧ ∃ v ∈ sem', v.code = p := by
  intro k
  induction k with
  | zero =>
    intro remaining scheduled year period j sem u p hj hu hp
    simp [spRounds] at hj
  | succ k ih =>
    intro remaining scheduled year period j sem u p hj hu hp
    by_cases hrem : remaining.isEmpty = true
    · rw [spRounds, if_pos hrem] at hj
      simp at hj
    · have houtputs : spRounds prereqs (k+1) remaining scheduled year period
          = consIfNonempty ((spTake prereqs remaining scheduled period).map
              (fun n => ⟨n.code, n.title, year, period⟩))
            (spRounds prereqs k
              (spRemainingAfter remaining (spTake prereqs remaining scheduled period))
              (spScheduledAfter scheduled (spTake prereqs remaining scheduled period))
              (nextYear year period) (nextPeriod period)) := by
        rw [spRounds, if_neg hrem]
      rw [houtputs] at hj ⊢
      unfold consIfNonempty at hj ⊢
      by_cases hunits : ((spTake prereqs remaining scheduled period).map
          (fun n => (⟨n.code, n.title, year, period⟩ : PlannedUnit))).isEmpty = true
      · rw [if_pos hunits] at hj ⊢
        have htk : spTake prereqs remaining scheduled period = [] := by
          rw [List.isEmpty_iff] at hunits
          exact List.map_eq_nil_iff.mp hunits
        rw [htk] at hj ⊢
        rcases ih _ _ _ _ j sem u p hj hu hp with h | ⟨i, hij, sem', hi, v, hv, hvc⟩
        · rcases spScheduledAfter_mem [] scheduled p h with h' | ⟨node, hn, _⟩
          · exact Or.inl h'
          · cases hn
        · exact Or.inr ⟨i, hij, sem', hi, v, hv, hvc⟩
      · rw [if_neg hunits] at hj ⊢
        cases j with
        | zero =>
          rw [List.getElem?_cons_zero] at hj
          have hsem := Option.some.inj hj
          subst hsem
          left
          obtain ⟨node, hnode, humk⟩ := List.mem_map.mp hu
          have helig := (spTake_mem prereqs remaining scheduled period node hnode).2
          unfold spEligible at helig
          rw [Bool.and_eq_true] at helig
          have hall := helig.1
          rw [List.all_eq_true] at hall
          have hcode : u.code = node.code := by
            rw [← humk]
          rw [hcode] at hp
          exact hall p hp
        | succ j' =>
          rw [List.getElem?_cons_succ] at hj
          rcases ih _ _ _ _ j' sem u p hj hu hp with h | ⟨i, hij, sem', hi, v, hv, hvc⟩
          · rcases spScheduledAfter_mem _ scheduled p h with h' | ⟨node, hnode, hcode⟩
            · exact Or.inl h'
            · refine Or.inr ⟨0, Nat.zero_le _, _, List.getElem?_cons_zero, ?_⟩
              exact ⟨⟨node.code, node.title, year, period⟩,
                List.mem_map_of_mem _ hnode, hcode⟩
          · refine Or.inr ⟨i + 1, Nat.succ_le_succ hij, sem', ?_, v, hv, hvc⟩
            rw [List.getElem?_cons_succ]
            exact hi

theorem psTake_mem (catalog : Catalog) (plannerCodeSet : List String)
    (remaining : List PlannerUnit) (scheduled : List String) (period : Period)
    (cap : Nat) (x : PlannerUnit)
    (hx : x ∈ psTake catalog plannerCodeSet remaining scheduled period cap) :
    x ∈ remaining ∧ psEligible catalog plannerCodeSet scheduled period x = true := by
  unfold psTake at hx
  have hx' := List.take_subset _ _ hx
  exact ⟨(List.mem_filter.mp hx').1, (List.mem_filter.mp hx').2⟩

theorem removeFirstByCodeP_subset (code : String) :
    ∀ (l : List PlannerUnit) (x : PlannerUnit), x ∈ removeFirstByCodeP code l → x ∈ l
  | [], x, h => by cases h
  | n :: rest, x, h => by
    unfold removeFirstByCodeP at h
    split at h
    · exact List.mem_cons_of_mem n h
    · rcases List.mem_cons.mp h with rfl | h'
      · exact List.mem_cons_self _ _
      · exact List.mem_cons_of_mem n (removeFirstByCodeP_subset code rest x h')

theorem psRemainingAfter_subset :
    ∀ (takes remaining : List PlannerUnit) (x : PlannerUnit),
      x ∈ psRemainingAfter remaining takes → x ∈ remaining
  | [], _, _, h => h
  | t :: ts, remaining, x, h => by
    unfold psRemainingAfter at h
    rw [List.foldl_cons] at h
    exact removeFirstByCodeP_subset t.code remaining x
      (psRemainingAfter_subset ts (removeFirstByCodeP t.code remaining) x h)

theorem psScheduledAfter_mem :
    ∀ (takes : List PlannerUnit) (scheduled : List String) (p : String),
      (psScheduledAfter scheduled takes).contains p = true →
      scheduled.contains p = true ∨ ∃ node ∈ takes, node.code = p
  | [], _, _, h => Or.inl h
  | t :: ts, scheduled, p, h => by
    unfold psScheduledAfter at h
    rw [List.foldl_cons] at h
    rcases psScheduledAfter_mem ts (t.code :: scheduled) p h with h' | ⟨node, hn, hc⟩
    · rcases List.mem_cons.mp ((contains_iff _ p).mp h') with rfl | hmem
      · exact Or.inr ⟨t, List.mem_cons_self t ts, rfl⟩
      · exact Or.inl ((contains_iff _ p).mpr hmem)
    · exact Or.inr ⟨node, List.mem_cons_of_mem t hn, hc⟩

theorem getPrereqsPlanner_mem_planner (catalog : Catalog) (plannerCodeSet : List String)
    (code p : String) (hp : p ∈ getPrereqsPlanner catalog plannerCodeSet code) :
    plannerCodeSet.contains p = true := by
  unfold getPrereqsPlanner at hp
  split at hp
  · cases hp
  · split at hp
    · cases hp
    · rw [List.mem_filterMap] at hp
      obtain ⟨g, _, hfind⟩ := hp
      exact List.find?_some hfind

/-- Claim C5, full-planner side: `scheduledSemesters` only places a unit when
each of its in-planner dependencies is already scheduled. -/
theorem psRounds_ordering (catalog : Catalog) (plannerCodeSet : List String) (cap : Nat) :
    ∀ (k : Nat) (remaining : List PlannerUnit) (scheduled : List String) (year : Nat)
      (period : Period) (j : Nat) (sem : ScheduledSemester) (u : SchedUnit) (p : String),
      (psRounds catalog plannerCodeSet cap k remaining scheduled year period)[j]? = some sem →
      u ∈ sem.units → p ∈ getPrereqsPlanner catalog plannerCodeSet u.code →
      scheduled.contains p = true
      ∨ ∃ i, i ≤ j
          ∧ ∃ sem',
            (psRounds catalog plannerCodeSet cap k remaining scheduled year period)[i]? = some sem'
          ∧ ∃ v ∈ sem'.units, v.code = p := by
  intro k
  induction k with
  | zero =>
    intro remaining scheduled year period j sem u p hj hu hp
    simp [psRounds] at hj
  | succ k ih =>
    intro remaining scheduled year period j sem u p hj hu hp
    by_cases hrem : remaining.isEmpty = true
    · rw [psRounds, if_pos hrem] at hj
      simp at hj
    · have houtputs : psRounds catalog plannerCodeSet cap (k+1) remaining scheduled year period
          = psConsRound year period
            ((psTake catalog plannerCodeSet remaining scheduled period cap).map (psMkUnit catalog))
            (psRounds catalog plannerCodeSet cap k
              (psRemainingAfter remaining (psTake catalog plannerCodeSet remaining scheduled period cap))
              (psScheduledAfter scheduled (psTake catalog plannerCodeSet remaining scheduled period cap))
              (nextYear year period) (nextPeriod period)) := by
        rw [psRounds, if_neg hrem]
      rw [houtputs] at hj ⊢
      unfold psConsRound at hj ⊢
      by_cases hunits : ((psTake catalog plannerCodeSet remaining scheduled period cap).map
          (psMkUnit catalog)).isEmpty = true
      · rw [if_pos hunits] at hj ⊢
        have htk : psTake catalog plannerCodeSet remaining scheduled period cap = [] := by
          rw [List.isEmpty_iff] at hunits
          exact List.map_eq_nil_iff.mp hunits
        rw [htk] at hj ⊢
        rcases ih _ _ _ _ j sem u p hj hu hp with h | ⟨i, hij, sem', hi, v, hv, hvc⟩
        · rcases psScheduledAfter_mem [] scheduled p h with h' | ⟨node, hn, _⟩
          · exact Or.inl h'
          · cases hn
        · exact Or.inr ⟨i, hij, sem', hi, v, hv, hvc⟩
      · rw [if_neg hunits] at hj ⊢
        cases j with
        | zero =>
          rw [List.getElem?_cons_zero] at hj
          have hsem := Option.some.inj hj
          subst hsem
          left
          simp only [] at hu
          obtain ⟨node, hnode, humk⟩ := List.mem_map.mp hu
          have helig := (psTake_mem catalog plannerCodeSet remaining scheduled period cap
            node hnode).2
          unfold psEligible at helig
          rw [Bool.and_eq_true] at helig
          have hall := helig.1
          rw [List.all_eq_true] at hall
          have hcode : u.code = node.code := by
            rw [← humk]
            rfl
          rw [hcode] at hp
          have hor := hall p hp
          have hpc := getPrereqsPlanner_mem_planner catalog plannerCodeSet node.code p hp
          rw [hpc] at hor
          simpa using hor
        | succ j' =>
          rw [List.getElem?_cons_succ] at hj
          rcases ih _ _ _ _ j' sem u p hj hu hp with h | ⟨i, hij, sem', hi, v, hv, hvc⟩
          · rcases psScheduledAfter_mem _ scheduled p h with h' | ⟨node, hnode, hcode⟩
            · exact Or.inl h'
            · refine Or.inr ⟨0, Nat.zero_le _, _, List.getElem?_cons_zero, ?_⟩
              exact ⟨psMkUnit catalog node, List.mem_map_of_mem _ hnode, hcode⟩
          · refine Or.inr ⟨i + 1, Nat.succ_le_succ hij, sem', ?_, v, hv, hvc⟩
            rw [List.getElem?_cons_succ]
            exact hi

/-- Claim C5.  Scheduler ordering invariant for both schedulers: every listed
dependency of a placed unit is either pre-seeded (pathway planner codes; the
full planner seeds nothing) or appears in a semester with an
earlier-or-equal index. -/
theorem scheduler_ordering :
    (∀ (prereqs : String → List String) (pathNodes : List PathNode)
       (plannerCodes : List String) (startYear : Nat) (startSemester : Period)
       (j : Nat) (sem : List PlannedUnit) (u : PlannedUnit) (p : String),
      (scheduledPath prereqs pathNodes plannerCodes startYear startSemester)[j]? = some sem →
      u ∈ sem → p ∈ prereqs u.code →
      plannerCodes.contains p = true
      ∨ ∃ i, i ≤ j
          ∧ ∃ sem',
            (scheduledPath prereqs pathNodes plannerCodes startYear startSemester)[i]? = some sem'
          ∧ ∃ v ∈ sem', v.code = p)
    ∧ (∀ (catalog : Catalog) (units : List PlannerUnit) (startYear : Nat)
        (startPeriod : Period) (cap : Nat) (j : Nat) (sem : ScheduledSemester)
        (u : SchedUnit) (p : String),
      (scheduledSemesters catalog units startYear startPeriod cap)[j]? = some sem →
      u ∈ sem.units → p ∈ getPrereqsPlanner catalog (units.map (fun w => w.code)) u.code →
      ∃ i, i ≤ j
        ∧ ∃ sem', (scheduledSemesters catalog units startYear startPeriod cap)[i]? = some sem'
        ∧ ∃ v ∈ sem'.units, v.code = p) := by
  constructor
  · intro prereqs pathNodes plannerCodes startYear startSemester j sem u p hj hu hp
    unfold scheduledPath at hj ⊢
    split at hj
    · simp at hj
    · rename_i hne
      rw [if_neg hne]
      have h0 := spRounds_ordering prereqs 20 pathNodes plannerCodes startYear startSemester
        j sem u p
      exact h0 hj hu hp
  · intro catalog units startYear startPeriod cap j sem u p hj hu hp
    unfold scheduledSemesters at hj ⊢
    split at hj
    · simp at hj
    · rename_i hne
      rw [if_neg hne]
      have h0 := psRounds_ordering catalog (units.map (fun w => w.code)) cap 30 units []
        startYear startPeriod j sem u p
      rcases h0 hj hu hp with h | h
      · simp at h
      · exact h

/-- The dependency function used in the scheduler witnesses: BBB2222 depends
on AAA1111. -/
def demoPrereqs : String → List String :=
  fun c => if c = "BBB2222" then ["AAA1111"] else []

/-- A dependency-free path node. -/
def nodeA : PathNode := ⟨"AAA1111", "Intro", 1, [], 0, none⟩

/-- A node depending on `nodeA` (under `demoPrereqs`). -/
def nodeB : PathNode := ⟨"BBB2222", "Next", 2, [], 1, none⟩

set_option maxHeartbeats 2000000 in
/-- Witness for C5: scheduling [BBB2222, AAA1111] with the dependency
BBB2222 → AAA1111 places AAA1111 in semester 0 and BBB2222 in semester 1,
and the theorem instantiates there; the full-planner side instantiates on the
demo catalog, where FIT2004 (index 2) is preceded by its dependency FIT1008. -/
theorem scheduler_ordering_witness :
    ((([] : List String).contains "AAA1111" = true
      ∨ ∃ i, i ≤ 1
          ∧ ∃ sem', (scheduledPath demoPrereqs [nodeB, nodeA] [] 2024 Period.S1)[i]? = some sem'
          ∧ ∃ v ∈ sem', v.code = "AAA1111"))
    ∧ (∃ i, i ≤ 2
        ∧ ∃ sem', (scheduledSemesters demoCatalog
            [⟨"FIT2004", "Algorithms", 6⟩, ⟨"FIT1008", "Fundamentals", 6⟩,
              ⟨"FIT1045", "Intro", 6⟩] 2024 Period.S1 4)[i]? = some sem'
        ∧ ∃ v ∈ sem'.units, v.code = "FIT1008") :=
  ⟨scheduler_ordering.1 demoPrereqs [nodeB, nodeA] [] 2024 Period.S1 1
      [⟨"BBB2222", "Next", 2024, Period.S2⟩] ⟨"BBB2222", "Next", 2024, Period.S2⟩
      "AAA1111" (by decide) (by decide) (by decide),
    scheduler_ordering.2 demoCatalog
      [⟨"FIT2004", "Algorithms", 6⟩, ⟨"FIT1008", "Fundamentals", 6⟩, ⟨"FIT1045", "Intro", 6⟩]
      2024 Period.S1 4 2 ⟨2025, Period.S1, [⟨"FIT2004", "Algorithms", 6, 1062⟩]⟩
      ⟨"FIT2004", "Algorithms", 6, 1062⟩ "FIT1008" (by decide) (by decide) (by decide)⟩

/-! ## Units never offered in S1/S2 are never placed by the pathway
scheduler (claim C10) -/

theorem periodStr_cases (period : Period) : periodStr period = "S1" ∨ periodStr period = "S2" := by
  cases period
  · exact Or.inl rfl
  · exact Or.inr rfl

theorem spRounds_no_bad_code (prereqs : String → List String) (c : String) :
    ∀ (k : Nat) (remaining : List PathNode) (scheduled : List String) (year : Nat)
      (period : Period),
      (∀ node ∈ remaining, node.code = c →
        node.semesters ≠ [] ∧ "S1" ∉ node.semesters ∧ "S2" ∉ node.semesters) →
      ∀ sem ∈ spRounds prereqs k remaining scheduled year period, ∀ u ∈ sem, u.code ≠ c := by
  intro k
  induction k with
  | zero =>
    intro remaining scheduled year period hbad sem hsem
    simp [spRounds] at hsem
  | succ k ih =>
    intro remaining scheduled year period hbad sem hsem
    by_cases hrem : remaining.isEmpty = true
    · rw [spRounds, if_pos hrem] at hsem
      simp at hsem
    · rw [spRounds, if_neg hrem] at hsem
      unfold consIfNonempty at hsem
      have hbad' : ∀ node ∈ spRemainingAfter remaining
          (spTake prereqs remaining scheduled period), node.code = c →
          node.semesters ≠ [] ∧ "S1" ∉ node.semesters ∧ "S2" ∉ node.semesters :=
        fun node hn => hbad node (spRemainingAfter_subset _ remaining node hn)
      have htail : sem ∈ spRounds prereqs k
            (spRemainingAfter remaining (spTake prereqs remaining scheduled period))
            (spScheduledAfter scheduled (spTake prereqs remaining scheduled period))
            (nextYear year period) (nextPeriod period) →
          ∀ u ∈ sem, u.code ≠ c :=
        fun h => ih _ _ _ _ hbad' sem h
      split at hsem
      · exact htail hsem
      · rcases List.mem_cons.mp hsem with rfl | hrest
        · intro u hu
          obtain ⟨node, hnode, humk⟩ := List.mem_map.mp hu
          have hmem := spTake_mem prereqs remaining scheduled period node hnode
          intro huc
          have hcode : node.code = c := by
            rw [← humk] at huc
            exact huc
          obtain ⟨hne', hs1, hs2⟩ := hbad node hmem.1 hcode
          have helig := hmem.2
          unfold spEligible at helig
          rw [Bool.and_eq_true] at helig
          have hoffer := helig.2
          rw [Bool.or_eq_true] at hoffer
          rcases hoffer with hemp | hcontains
          · rw [List.isEmpty_iff] at hemp
            exact hne' hemp
          · have hmem' := (contains_iff _ _).mp hcontains
            rcases periodStr_cases period with hps | hps
            · rw [hps] at hmem'
              exact hs1 hmem'
            · rw [hps] at hmem'
              exact hs2 hmem'
        · exact htail hrest

/-- Claim C10.  A path node whose parsed semester list is non-empty but
contains neither "S1" nor "S2" (for example a Summer/Winter/October/February
offering) is never placed by the pathway scheduler: the current period is
always S1 or S2, so the node fails the offering check every round and is
silently dropped when the 20-round cap runs out. -/
theorem offPeriod_unit_never_scheduled (prereqs : String → List String)
    (pathNodes : List PathNode) (plannerCodes : List String) (startYear : Nat)
    (startSemester : Period) (c : String)
    (hbad : ∀ node ∈ pathNodes, node.code = c →
      node.semesters ≠ [] ∧ "S1" ∉ node.semesters ∧ "S2" ∉ node.semesters) :
    ∀ sem ∈ scheduledPath prereqs pathNodes plannerCodes startYear startSemester,
      ∀ u ∈ sem, u.code ≠ c := by
  unfold scheduledPath
  split
  · intro sem h
    cases h
  · exact spRounds_no_bad_code prereqs c 20 pathNodes plannerCodes startYear
      startSemester hbad

/-- A node offered only in summer, as parsed from a real offering period
string by `getSemestersFromOfferings`. -/
def summerNode : PathNode :=
  ⟨"AAA1111", "SummerOnly", 1,
    getSemestersFromOfferings (some [⟨"Clayton", "ON-CAMPUS", "SSA-01", "Summer semester A"⟩]),
    0, none⟩

/-- Witness for C10: the summer-only offering parses to ["Summer"] (no S1/S2),
the unit is never assigned — indeed the whole 20-round schedule is empty. -/
theorem offPeriod_unit_never_scheduled_witness :
    summerNode.semesters = ["Summer"]
    ∧ (∀ sem ∈ scheduledPath (fun _ => []) [summerNode] [] 2024 Period.S1,
        ∀ u ∈ sem, u.code ≠ "AAA1111")
    ∧ scheduledPath (fun _ => []) [summerNode] [] 2024 Period.S1 = [] :=
  ⟨by decide,
    offPeriod_unit_never_scheduled (fun _ => []) [summerNode] [] 2024 Period.S1
      "AAA1111" (by decide),
    by decide⟩

/-! ## The selection heuristic (claim C3)

`scored.sort((a, b) => b.score - a.score)` is a stable descending sort, so
`scored[0]` is the earliest entry of maximal score.  The lemmas below prove
exactly that about the embedded insertion sort. -/

theorem insertScoredDesc_ne_nil (x : String × Int) :
    ∀ l : List (String × Int), insertScoredDesc x l ≠ []
  | [] => by simp [insertScoredDesc]
  | y :: ys => by
    unfold insertScoredDesc
    split
    · simp
    · simp

theorem sortScoredDesc_eq_nil (l : List (String × Int))
    (h : sortScoredDesc l = []) : l = [] := by
  cases l with
  | nil => rfl
  | cons a l' =>
    exact absurd h (insertScoredDesc_ne_nil a (sortScoredDesc l'))

theorem mem_insertScoredDesc (x a : String × Int) (l : List (String × Int)) :
    a ∈ insertScoredDesc x l ↔ a = x ∨ a ∈ l := by
  induction l with
  | nil => simp [insertScoredDesc]
  | cons y ys ih =>
    unfold insertScoredDesc
    split
    · simp
    · simp only [List.mem_cons, ih]
      tauto

theorem mem_sortScoredDesc (a : String × Int) (l : List (String × Int)) :
    a ∈ sortScoredDesc l ↔ a ∈ l := by
  induction l with
  | nil => simp [sortScoredDesc]
  | cons y ys ih =>
    show a ∈ insertScoredDesc y (sortScoredDesc ys) ↔ a ∈ y :: ys
    rw [mem_insertScoredDesc]
    simp only [List.mem_cons, ih]

theorem sortScoredDesc_first_max :
    ∀ (l : List (String × Int)) (x : String × Int) (t : List (String × Int)),
      sortScoredDesc l = x :: t →
      ∃ pre post, l = pre ++ x :: post
        ∧ (∀ y ∈ pre, y.2 < x.2) ∧ (∀ y ∈ post, y.2 ≤ x.2)
  | [], x, t, h => by cases h
  | a :: l', x, t, h => by
    replace h : insertScoredDesc a (sortScoredDesc l') = x :: t := h
    cases hs : sortScoredDesc l' with
    | nil =>
      have hl' : l' = [] := sortScoredDesc_eq_nil l' hs
      rw [hs] at h
      unfold insertScoredDesc at h
      cases h
      exact ⟨[], [], by simp [hl'], by simp, by simp [hl']⟩
    | cons h' t' =>
      rw [hs] at h
      obtain ⟨pre', post', hdec, hpre', hpost'⟩ :=
        sortScoredDesc_first_max l' h' t' hs
      have hall : ∀ y ∈ l', y.2 ≤ h'.2 := by
        intro y hy
        rw [hdec] at hy
        rcases List.mem_append.mp hy with hm | hm
        · exact le_of_lt (hpre' y hm)
        · rcases List.mem_cons.mp hm with rfl | hm'
          · exact le_refl _
          · exact hpost' y hm'
      unfold insertScoredDesc at h
      split at h
      · rename_i hle
        obtain ⟨hx, ht⟩ := List.cons.inj h
        subst hx
        refine ⟨[], l', by simp, by simp, ?_⟩
        intro y hy
        exact le_trans (hall y hy) hle
      · rename_i hgt
        obtain ⟨hx, ht⟩ := List.cons.inj h
        subst hx
        refine ⟨a :: pre', post', by simp [hdec], ?_, hpost'⟩
        intro y hy
        rcases List.mem_cons.mp hy with rfl | hm
        · omega
        · exact hpre' y hm

theorem scoredOptions_mem (catalog : Catalog) (planner : List String)
    (options : List String) (parentCode : String) (x : String × Int)
    (hx : x ∈ scoredOptions catalog planner options parentCode) :
    x.1 ∈ options ∧ (lookupUnit catalog x.1).isSome = true
    ∧ x.2 = optionScore catalog planner (relatedPrefixesFor parentCode) x.1 := by
  unfold scoredOptions at hx
  rw [List.mem_map] at hx
  obtain ⟨o, ho, hmk⟩ := hx
  rw [List.mem_filter] at ho
  cases hmk
  exact ⟨ho.1, ho.2, rfl⟩

theorem chooseBestOption_multi (catalog : Catalog) (planner : List String)
    (o₁ o₂ : String) (rest : List String) (parentCode : String) :
    chooseBestOption catalog planner (o₁ :: o₂ :: rest) parentCode
      = match (o₁ :: o₂ :: rest).find? (fun o => planner.contains o) with
        | some o => some o
        | none =>
          match sortScoredDesc (scoredOptions catalog planner (o₁ :: o₂ :: rest) parentCode) with
          | [] => some o₁
          | (c, _) :: _ => some (if c = "" then o₁ else c) := rfl

/-- Claim C3.  For a non-empty option list, `chooseBestOption` returns an
option; it returns a satisfied option whenever one exists; and otherwise —
whenever at least one option is catalog-known and the empty-string pseudo-code
(excluded by the data model, and falsy in the JS fallback
`scored[0]?.code || options[0]`) is not among the options — it returns the
catalog-known option of maximal score
`100*(10 - prefixRank) - 10*prereqDepth - level`, the earliest in the
original array order among ties. -/
theorem chooseBestOption_spec (catalog : Catalog) (planner : List String)
    (options : List String) (parentCode : String) (hne : options ≠ []) :
    ∃ r, chooseBestOption catalog planner options parentCode = some r ∧ r ∈ options
    ∧ ((∃ o ∈ options, planner.contains o = true) → planner.contains r = true)
    ∧ ((∀ o ∈ options, planner.contains o = false) → "" ∉ options →
        (∃ o ∈ options, (lookupUnit catalog o).isSome = true) →
        ∃ pre post,
          scoredOptions catalog planner options parentCode
            = pre ++ (r, optionScore catalog planner (relatedPrefixesFor parentCode) r) :: post
          ∧ (∀ y ∈ pre, y.2 < optionScore catalog planner (relatedPrefixesFor parentCode) r)
          ∧ (∀ y ∈ post, y.2 ≤ optionScore catalog planner (relatedPrefixesFor parentCode) r)) := by
  cases options with
  | nil => exact absurd rfl hne
  | cons o₁ rest =>
    cases rest with
    | nil =>
      refine ⟨o₁, rfl, List.mem_singleton_self o₁, ?_, ?_⟩
      · rintro ⟨o, ho, hsat⟩
        rcases List.mem_singleton.mp ho with rfl
        exact hsat
      · intro hnosat hnoempty hknown
        obtain ⟨o, ho, hsome⟩ := hknown
        rcases List.mem_singleton.mp ho with rfl
        refine ⟨[], [], ?_, by simp, by simp⟩
        unfold scoredOptions
        rw [List.filter_cons, hsome]
        rfl
    | cons o₂ rest' =>
      rw [chooseBestOption_multi]
      cases hfind : (o₁ :: o₂ :: rest').find? (fun o => planner.contains o) with
      | some o =>
        refine ⟨o, rfl, List.mem_of_find?_eq_some hfind, fun _ => List.find?_some hfind, ?_⟩
        intro hnosat _ _
        exfalso
        have hmem := List.mem_of_find?_eq_some hfind
        have := List.find?_some hfind
        rw [hnosat o hmem] at this
        cases this
      | none =>
        have hnone := List.find?_eq_none.mp hfind
        cases hsort : sortScoredDesc (scoredOptions catalog planner (o₁ :: o₂ :: rest') parentCode) with
        | nil =>
          refine ⟨o₁, rfl, List.mem_cons_self _ _, ?_, ?_⟩
          · rintro ⟨o, ho, hsat⟩
            exact absurd hsat (hnone o ho)
          · intro hnosat hnoempty hknown
            exfalso
            obtain ⟨o, ho, hsome⟩ := hknown
            have hmem : (o, optionScore catalog planner (relatedPrefixesFor parentCode) o)
                ∈ scoredOptions catalog planner (o₁ :: o₂ :: rest') parentCode := by
              unfold scoredOptions
              rw [List.mem_map]
              exact ⟨o, List.mem_filter.mpr ⟨ho, hsome⟩, rfl⟩
            rw [sortScoredDesc_eq_nil _ hsort] at hmem
            cases hmem
        | cons x t =>
          have hxmem : x ∈ scoredOptions catalog planner (o₁ :: o₂ :: rest') parentCode := by
            rw [← mem_sortScoredDesc, hsort]
            exact List.mem_cons_self x t
          obtain ⟨hx1, hx1some, hx2⟩ :=
            scoredOptions_mem catalog planner (o₁ :: o₂ :: rest') parentCode x hxmem
          by_cases hxe : x.1 = ""
          · refine ⟨o₁, ?_, List.mem_cons_self _ _, ?_, ?_⟩
            · show some (if x.1 = "" then o₁ else x.1) = some o₁
              rw [if_pos hxe]
            · rintro ⟨o, ho, hsat⟩
              exact absurd hsat (hnone o ho)
            · intro hnosat hnoempty hknown
              exfalso
              rw [hxe] at hx1
              exact hnoempty hx1
          · refine ⟨x.1, ?_, hx1, ?_, ?_⟩
            · show some (if x.1 = "" then o₁ else x.1) = some x.1
              rw [if_neg hxe]
            · rintro ⟨o, ho, hsat⟩
              exact absurd hsat (hnone o ho)
            · intro hnosat hnoempty hknown
              obtain ⟨pre, post, hdec, hpre, hpost⟩ :=
                sortScoredDesc_first_max _ x t hsort
              refine ⟨pre, post, ?_, ?_, ?_⟩
              · rw [hdec]
                congr 1
                rw [← hx2]
              · intro y hy
                rw [← hx2]
                exact hpre y hy
              · intro y hy
                rw [← hx2]
                exact hpost y hy

/-- A catalog containing a unit whose code is the empty string, alongside an
ordinary high-level unit. -/
def emptyCodeCatalog : Catalog :=
  [("ZZZ9999", demoUnit "ZZZ9999" "Odd" none),
   ("", demoUnit "" "Empty" none)]

/-- Counterexample for C3 as universally stated: with options
["ZZZ9999", ""], no satisfied option and both options catalog-known, the
empty-string option scores strictly higher (0 against -9), yet
`chooseBestOption` returns "ZZZ9999" — the JS fallback
`scored[0]?.code || options[0]` treats the winning empty-string code as falsy
and falls back to the first option, so the highest-scoring option is not
returned. -/
theorem chooseBestOption_falsy_counterexample :
    chooseBestOption emptyCodeCatalog [] ["ZZZ9999", ""] "FIT1045" = some "ZZZ9999"
    ∧ optionScore emptyCodeCatalog [] (relatedPrefixesFor "FIT1045") "ZZZ9999"
        < optionScore emptyCodeCatalog [] (relatedPrefixesFor "FIT1045") ""
    ∧ (∀ o ∈ ["ZZZ9999", ""], ([] : List String).contains o = false)
    ∧ (∀ o ∈ ["ZZZ9999", ""], (lookupUnit emptyCodeCatalog o).isSome = true) := by
  refine ⟨?_, ?_, ?_, ?_⟩ <;> decide

/-- Witness for C3 at the demo catalog: among the FIT2004 math-group options
MAT1830 and ENG1005, the heuristic picks MAT1830 (related MAT prefix), and
the specification theorem instantiates there. -/
theorem chooseBestOption_spec_witness :
    chooseBestOption demoCatalog [] ["MAT1830", "ENG1005"] "FIT2004" = some "MAT1830"
    ∧ (∃ r, chooseBestOption demoCatalog [] ["MAT1830", "ENG1005"] "FIT2004" = some r
      ∧ r ∈ ["MAT1830", "ENG1005"]
      ∧ ((∃ o ∈ ["MAT1830", "ENG1005"], (([] : List String)).contains o = true) →
          (([] : List String)).contains r = true)
      ∧ ((∀ o ∈ ["MAT1830", "ENG1005"], (([] : List String)).contains o = false) →
          "" ∉ ["MAT1830", "ENG1005"] →
          (∃ o ∈ ["MAT1830", "ENG1005"], (lookupUnit demoCatalog o).isSome = true) →
          ∃ pre post,
            scoredOptions demoCatalog [] ["MAT1830", "ENG1005"] "FIT2004"
              = pre ++ (r, optionScore demoCatalog [] (relatedPrefixesFor "FIT2004") r) :: post
            ∧ (∀ y ∈ pre, y.2 < optionScore demoCatalog [] (relatedPrefixesFor "FIT2004") r)
            ∧ (∀ y ∈ post, y.2 ≤ optionScore demoCatalog [] (relatedPrefixesFor "FIT2004") r))) :=
  ⟨by decide,
    chooseBestOption_spec demoCatalog [] ["MAT1830", "ENG1005"] "FIT2004" (by decide)⟩

end Handbook
